import Mathlib

/-!
Verification development for the `blender_export` repository
(`src/rt_export.py`, the current variant of the exporter, which all
claims reference).  Python floats are modelled as exact rationals `ℚ`;
stateful loops are modelled as folds; fallible code returns
`Except String`.
-/

namespace RTExport

/-- Round a rational to the nearest integer with ties going to the even
integer.  This is the exact-arithmetic counterpart of CPython's
correctly-rounded `round` builtin (banker's rounding). -/
def rhe (q : ℚ) : ℤ :=
  let f : ℤ := q.num.fdiv q.den
  let r := q - (f : ℚ)
  if r < 1/2 then f
  else if 1/2 < r then f + 1
  else if f % 2 = 0 then f else f + 1

/-- Embedding of `norm` from rt_export.py: `round(v, 6)` followed by the
canonicalisation of `-0.0` to `0.0`.  In exact rational arithmetic the
`-0.0` branch is the identity (there is no negative zero in `ℚ`), so the
function reduces to rounding to 6 decimal digits. -/
def norm (v : ℚ) : ℚ := rhe (v * 1000000) / 1000000

/-- Embedding of `norm_list` from rt_export.py. -/
def norm_list (vs : List ℚ) : List ℚ := vs.map norm

/-- Extended float value: a Python float is either a finite value
(modelled exactly as a rational) or one of the non-finite values
`nan`, `inf`, `-inf`. -/
inductive EF where
  | fin (q : ℚ)
  | nan
  | inf
  | ninf
deriving DecidableEq

/-- Finiteness test on extended floats. -/
def EF.isFinite : EF → Bool
  | .fin _ => true
  | _ => false

/-- Embedding of `norm` from rt_export.py at the level of extended
floats.  CPython's `round(v, 6)` returns NaN and the infinities
unchanged when `ndigits` is given (it only raises for non-finite input
when `ndigits` is omitted), and the `q == -0.0` comparison is false for
non-finite values, so `norm` propagates every non-finite input
unchanged and never raises. -/
def normE : EF → EF
  | .fin q => .fin (norm q)
  | .nan => .nan
  | .inf => .inf
  | .ninf => .ninf

/-- Embedding of `ACTION_PRECISION` from rt_export.py. -/
def ACTION_PRECISION : ℚ := 1/1000000

/-- A rational is a fixed point of `norm` iff it is an integer multiple
of `10⁻⁶`. -/
def NormFixed (q : ℚ) : Prop := norm q = q

/-! Mesh export (`export_mesh`, `triangulate`, `make_indexes` in
rt_export.py).  The bmesh/mesh snapshot read by the code is modelled by
explicit structures: a face carries its face-map layer value, its
vertices and its loops; the active UV layer is a list indexed by loop
index; vertex-group data mirrors `me.vertex_groups` and
`me.data.vertices`. -/

/-- Snapshot of a bmesh vertex: `vert.co`, `vert.normal`, `vert.index`. -/
structure BVert where
  co : ℚ × ℚ × ℚ
  normal : ℚ × ℚ × ℚ
  index : ℕ
deriving DecidableEq

/-- Snapshot of a bmesh loop: only `loop.index` is read by the code. -/
structure BLoop where
  index : ℤ
deriving DecidableEq

/-- Snapshot of a bmesh face: the face-map layer value `face[fm]`, the
vertex list and the loop list (iterated together via `zip`). -/
structure BFace where
  mapIdx : ℤ
  verts : List BVert
  loops : List BLoop
deriving DecidableEq

/-- One element of `v.groups` for a mesh vertex: group index and weight. -/
structure VGroupEntry where
  group : ℕ
  weight : ℚ
deriving DecidableEq

/-- Snapshot of an element of `me.data.vertices`. -/
structure MVert where
  index : ℕ
  groups : List VGroupEntry
deriving DecidableEq

/-- Read-only snapshot of everything `export_mesh` reads from Blender:
the (already triangulated) face list of the bmesh, the active UV layer
(`uv_layer[i].uv`), the face-map names (`me.face_maps`), the vertex
groups (`(g.index, g.name)` pairs) and the mesh vertices. -/
structure MeshData where
  faces : List BFace
  uvLayer : List (ℚ × ℚ)
  faceMaps : List String
  vertexGroups : List (ℕ × String)
  vertices : List MVert
deriving DecidableEq

/-- The per-corner record dict built by `export_mesh`:
`{"c": norm_list([x, z, -y]), "n": norm_list([q, e, -w]),
  "t": [u, 1.0 - v], "map_idx": map_idx}`.  Note that the position and
normal are rounded but the UV pair is not, and that the face-map value
is part of the record (and hence of record equality). -/
structure VertRec where
  c : List ℚ
  n : List ℚ
  t : List ℚ
  map_idx : ℤ
deriving DecidableEq

/-- Index of the first element of the list equal to `v`, or the length
of the list when no element matches: the value `idx` takes in the
`for i, w in enumerate(verts)` scan of `make_indexes` (falling through
to `len(verts)` in the `else` branch). -/
def firstIdx (v : VertRec) : List VertRec → ℕ
  | [] => 0
  | w :: ws => if w = v then 0 else firstIdx v ws + 1

/-- The loop of `make_indexes`: for each record, reuse the index of the
first equal record already collected, otherwise append the record. -/
def mi_loop : List VertRec → List VertRec → List VertRec × List ℕ
  | verts, [] => (verts, [])
  | verts, v :: vs =>
    let idx := firstIdx v verts
    let verts1 := if v ∈ verts then verts else verts ++ [v]
    let res := mi_loop verts1 vs
    (res.1, idx :: res.2)

/-- Embedding of `make_indexes` from rt_export.py. -/
def make_indexes (vs : List VertRec) : List VertRec × List ℕ := mi_loop [] vs

/-- Embedding of `triangulate` from rt_export.py restricted to its
checking behaviour: a face with fewer than 3 corners raises.  The
actual re-triangulation of faces with more than 3 corners is an
external Blender operator (`bmesh.ops.triangulate`) and is not
modelled; the development covers meshes that are already triangulated,
for which the operator is never invoked. -/
def triangulate (faces : List BFace) : Except String Unit :=
  if faces.all (fun f => 3 ≤ f.verts.length) then .ok ()
  else .error "Failed to export mesh with face len < 3"

/-- Append a value to the list stored under a key, creating the key at
the end when absent: the behaviour of `defaultdict(list)` under
`d[k].append(x)`. -/
def dappend {K V : Type} [DecidableEq K] : List (K × List V) → K → V → List (K × List V)
  | [], k, x => [(k, [x])]
  | (k0, vs) :: rest, k, x =>
    if k0 = k then (k0, vs ++ [x]) :: rest else (k0, vs) :: dappend rest k x

/-- State threaded through the face loop of `export_mesh`: the record
list `verts`, the original vertex indices `old_indxs` and the `slots`
defaultdict. -/
structure MeshLoopState where
  verts : List VertRec
  old_indxs : List ℕ
  slots : List (String × List ℕ)
deriving DecidableEq

/-- Body of the inner corner loop of `export_mesh`: check
`loop.index < 0`, look the UV up in the active layer, and append the
record dict and the original vertex index. -/
def processCorner (uvLayer : List (ℚ × ℚ)) (mapIdx : ℤ) (st : MeshLoopState)
    (p : BVert × BLoop) : Except String MeshLoopState :=
  let (x, y, z) := p.1.co
  let (q, w, e) := p.1.normal
  if p.2.index < 0 then .error "Failed to get uv map. Try to triangulate mesh"
  else
    match uvLayer[p.2.index.toNat]? with
    | none => .error "IndexError"
    | some uv =>
      let u := uv.1
      let v := uv.2
      let r0 : VertRec :=
        { c := norm_list [x, z, -y], n := norm_list [q, e, -w],
          t := [u, 1 - v], map_idx := mapIdx }
      .ok { st with verts := st.verts ++ [r0], old_indxs := st.old_indxs ++ [p.1.index] }

/-- Body of the face loop of `export_mesh`: the
`assert len(face.verts) == 3`, the slot recording for a non-negative
face-map value, then the corner loop. -/
def processFace (md : MeshData) (st : MeshLoopState) (fp : ℕ × BFace) :
    Except String MeshLoopState := do
  let (face_idx, face) := fp
  if face.verts.length = 3 then
    let st1 ←
      if 0 ≤ face.mapIdx then
        match md.faceMaps[face.mapIdx.toNat]? with
        | none => Except.error "IndexError"
        | some slot_name => Except.ok { st with slots := dappend st.slots slot_name face_idx }
      else Except.ok st
    (face.verts.zip face.loops).foldlM (processCorner md.uvLayer face.mapIdx) st1
  else Except.error "AssertionError"

/-- The whole face loop of `export_mesh` (with `enumerate`). -/
def meshLoop (md : MeshData) : Except String MeshLoopState :=
  md.faces.enum.foldlM (processFace md) ⟨[], [], []⟩

/-- A vertex record after `del v["map_idx"]`. -/
structure VertOut where
  c : List ℚ
  n : List ℚ
  t : List ℚ
deriving DecidableEq

/-- Dropping the `map_idx` key from a record. -/
def strip (v : VertRec) : VertOut := { c := v.c, n := v.n, t := v.t }

/-- First-match lookup in the `group_names` dict
(`{g.index: g.name for g in me.vertex_groups}`; group indices are
unique in Blender, so first match and last-wins dict construction
agree). -/
def dictGet : List (ℕ × String) → ℕ → Option String
  | [], _ => none
  | (k, v) :: rest, k0 => if k = k0 then some v else dictGet rest k0

/-- First-occurrence deduplication, modelling the `new_idxs` Python
`set` (iteration order of a Python set is unspecified; the embedding
fixes first-insertion order, which no claim depends on). -/
def dedupFirst (l : List ℕ) : List ℕ :=
  l.foldl (fun acc x => if x ∈ acc then acc else acc ++ [x]) []

/-- Body of the weight loop of `export_mesh` for a single
`(vertex, group entry)` pair: look up the group name, round the weight,
skip non-positive rounded weights, collect the set of deduplicated
output indices the vertex expanded into, and append one
`[new_idx, weight]` entry per output index. -/
def weightStep (group_names : List (ℕ × String)) (old_indxs indxs : List ℕ) (vidx : ℕ)
    (groups : List (String × List (ℕ × ℚ))) (g : VGroupEntry) :
    Except String (List (String × List (ℕ × ℚ))) :=
  match dictGet group_names g.group with
  | none => .error "KeyError"
  | some name =>
    let weight := norm g.weight
    if weight ≤ 0 then .ok groups
    else
      let new_idxs :=
        dedupFirst (((old_indxs.zip indxs).filter (fun p => p.1 == vidx)).map (·.2))
      .ok (new_idxs.foldl (fun gs ni => dappend gs name (ni, weight)) groups)

/-- The mesh output tree.  The code omits the `groups` and `slots` keys
when the dicts are empty; an empty association list models the omitted
key. -/
structure MeshOut where
  verts : List VertOut
  indxs : List ℕ
  groups : List (String × List (ℕ × ℚ))
  slots : List (String × List ℕ)
deriving DecidableEq

/-- Embedding of `export_mesh` from rt_export.py.  (`verts, indxs =
make_indexes(verts)` is referenced through the projections of the
`make_indexes` result; `make_indexes` is pure, so this is the same
value.) -/
def export_mesh (md : MeshData) : Except String MeshOut := do
  triangulate md.faces
  let st ← meshLoop md
  let groups ← md.vertices.foldlM (fun gs v =>
      v.groups.foldlM (fun gs2 g =>
        weightStep md.vertexGroups st.old_indxs (make_indexes st.verts).2 v.index gs2 g) gs) []
  pure { verts := (make_indexes st.verts).1.map strip, indxs := (make_indexes st.verts).2,
         groups := groups, slots := st.slots }

/-! Action export (`export_action`, `make_interpolation`, `parse_path`
in rt_export.py).  Python string helpers (`str.find`, `str.rfind`,
slicing, `str.endswith`, `str.lower`) are modelled over character
lists with exactly CPython's semantics. -/

/-- Python `s.find(sub)` scan starting at offset `i`: smallest position
at which `sub` occurs, or `-1`. -/
def strFindAux (sub : List Char) : List Char → ℕ → ℤ
  | [], i => if sub.isPrefixOf ([] : List Char) then (i : ℤ) else -1
  | c :: rest, i =>
    if sub.isPrefixOf (c :: rest) then (i : ℤ) else strFindAux sub rest (i + 1)

/-- Python `s.find(sub)`. -/
def strFind (s sub : List Char) : ℤ := strFindAux sub s 0

/-- Python `s.rfind(sub)` scan: the largest matching position seen so
far is carried in `best`. -/
def strRfindAux (sub : List Char) : List Char → ℕ → ℤ → ℤ
  | [], i, best => if sub.isPrefixOf ([] : List Char) then (i : ℤ) else best
  | c :: rest, i, best =>
    strRfindAux sub rest (i + 1) (if sub.isPrefixOf (c :: rest) then (i : ℤ) else best)

/-- Python `s.rfind(sub)`: largest position at which `sub` occurs, or `-1`. -/
def strRfind (s sub : List Char) : ℤ := strRfindAux sub s 0 (-1)

/-- Normalisation of one Python slice bound for a sequence of length `n`. -/
def sliceBound (n : ℕ) (i : ℤ) : ℕ :=
  if i < 0 then (max 0 ((n : ℤ) + i)).toNat else min i.toNat n

/-- Python slice `s[a:b]` with possibly negative bounds. -/
def pySlice (s : List Char) (a b : ℤ) : List Char :=
  let a1 := sliceBound s.length a
  let b1 := sliceBound s.length b
  (s.drop a1).take (b1 - a1)

/-- Python `s.endswith(x)`. -/
def pyEndsWith (s x : String) : Bool := x.toList.isSuffixOf s.toList

/-- Python `str.lower` restricted to ASCII (the only characters Blender
interpolation enum names contain). -/
def asciiLower (c : Char) : Char :=
  if 'A' ≤ c ∧ c ≤ 'Z' then Char.ofNat (c.toNat + 32) else c

/-- Python `s.lower()` on ASCII strings. -/
def strLower (s : String) : String := ⟨s.toList.map asciiLower⟩

/-- The name extraction of `parse_path`:
`nl = path.find("[\"")`, `nr = path.rfind("\"].")`,
`name = path[nl + 2:nr]`. -/
def extractName (path : String) : String :=
  let s := path.toList
  let nl := strFind s ['[', '"']
  let nr := strRfind s ['"', ']', '.']
  ⟨pySlice s (nl + 2) nr⟩

/-- Embedding of `parse_path` from rt_export.py: raises on Euler
rotation paths, recognises quaternion rotation, location and scale
suffixes, and returns `none` (skip the channel) for everything else. -/
def parse_path (path : String) : Except String (Option (String × String)) :=
  let name := extractName path
  if pyEndsWith path "rotation_euler" then
    .error "A quaternion rotation was expected, not Euler angles"
  else if pyEndsWith path "rotation_quaternion" then .ok (some (name, "rot"))
  else if pyEndsWith path "location" then .ok (some (name, "pos"))
  else if pyEndsWith path "scale" then .ok (some (name, "scl"))
  else .ok none

/-- Snapshot of a keyframe point: `k.co`, `k.interpolation`, `k.easing`
and the two bezier handles. -/
structure Keyframe where
  frame : ℚ
  value : ℚ
  interpolation : String
  easing : String
  handle_left : ℚ × ℚ
  handle_right : ℚ × ℚ
deriving DecidableEq

/-- Snapshot of an f-curve: `c.array_index`, `c.data_path`,
`c.keyframe_points`. -/
structure FCurve where
  array_index : ℕ
  data_path : String
  keyframe_points : List Keyframe
deriving DecidableEq

/-- Snapshot of an action: its f-curve list. -/
structure Action where
  fcurves : List FCurve
deriving DecidableEq

/-- Embedding of `make_interpolation` from rt_export.py: resolve the
easing tag, drop it when it is the default `"in"` or the interpolation
kind ignores easing, and rename the interpolation kind (default
`BEZIER` becomes no tag). -/
def make_interpolation (k : Keyframe) : Option String × Option String :=
  let curve := k.interpolation
  let ease : Option String :=
    if k.easing = "AUTO" then
      if curve = "BACK" ∨ curve = "BOUNCE" ∨ curve = "ELASTIC" then some "out" else some "in"
    else if k.easing = "EASE_IN" then some "in"
    else if k.easing = "EASE_OUT" then some "out"
    else if k.easing = "EASE_IN_OUT" then some "in_out"
    else none
  let ease : Option String :=
    if ease = some "in" ∨ curve = "CONSTANT" ∨ curve = "LINEAR" ∨ curve = "BEZIER" then none
    else ease
  let curveTag : Option String :=
    if curve = "BEZIER" then none
    else if curve = "CONSTANT" then some "const"
    else if curve = "LINEAR" then some "line"
    else some (strLower curve)
  (ease, curveTag)

/-- The pair of bezier handles attached to a keyframe (`Handles`
dataclass in rt_export.py). -/
structure Handles where
  left : ℚ × ℚ
  right : ℚ × ℚ
deriving DecidableEq

/-- The per-keyframe node dict built in the first loop of
`export_action`: `{"f": frame, "v": value}` plus the optional `"e"` and
`"c"` tags. -/
structure KNode where
  f : ℚ
  v : ℚ
  e : Option String
  c : Option String
deriving DecidableEq

/-- A `(path -> nodes)` key of the `motions` defaultdict. -/
abbrev MPath := String × String

/-- An element of a `motions` value list: `(idx, node, handles)`. -/
abbrev RawNode := ℕ × KNode × Handles

/-- Append a batch of values to the list stored under a key, creating
the key at the end when absent: `nodes = motions[path]` followed by
`nodes.append(...)` for each element (a bare access already registers
the key in a `defaultdict`). -/
def dextend {K V : Type} [DecidableEq K] : List (K × List V) → K → List V → List (K × List V)
  | [], k, xs => [(k, xs)]
  | (k0, vs) :: rest, k, xs =>
    if k0 = k then (k0, vs ++ xs) :: rest else (k0, vs) :: dextend rest k xs

/-- State of the first loop of `export_action`: the running frame-range
bounds (`start`, `end` — the latter renamed `stop` since `end` is a
Lean keyword) and the `motions` defaultdict. -/
structure Phase1State where
  start : Option ℚ
  stop : Option ℚ
  motions : List (MPath × List RawNode)
deriving DecidableEq

/-- Body of the keyframe loop of `export_action`: round the frame,
extend the running range, build the node dict and the handles pair. -/
def kfStep (idx : ℕ) (acc : (Option ℚ × Option ℚ) × List RawNode) (k : Keyframe) :
    (Option ℚ × Option ℚ) × List RawNode :=
  let frame := norm k.frame
  let s : Option ℚ := match acc.1.1 with
    | none => some frame
    | some s0 => some (min s0 frame)
  let e : Option ℚ := match acc.1.2 with
    | none => some frame
    | some e0 => some (max e0 frame)
  let ec := make_interpolation k
  let node : KNode := { f := frame, v := k.value, e := ec.1, c := ec.2 }
  ((s, e), acc.2 ++ [(idx, node, ⟨k.handle_left, k.handle_right⟩)])

/-- Body of the f-curve loop of `export_action`: parse the data path
(raising on Euler rotations), skip unrecognised paths, otherwise
process every keyframe and extend the `motions` entry of the path. -/
def processFCurve (st : Phase1State) (c : FCurve) : Except String Phase1State := do
  match ← parse_path c.data_path with
  | none => pure st
  | some path =>
    let res := c.keyframe_points.foldl (kfStep c.array_index) ((st.start, st.stop), [])
    pure { start := res.1.1, stop := res.1.2, motions := dextend st.motions path res.2 }

/-- The whole first loop of `export_action`. -/
def phase1 (act : Action) : Except String Phase1State :=
  act.fcurves.foldlM processFCurve ⟨none, none, []⟩

/-- A per-axis value dict inside a motion node:
`{"r": [from, to], "handles": handles}` plus the optional `"e"`, `"c"`
and (added during segment derivation) `"b"` keys. -/
structure AxVal where
  r : ℚ × Option ℚ
  handles : Handles
  e : Option String
  c : Option String
  b : Option (ℚ × ℚ × ℚ × ℚ)
deriving DecidableEq

/-- A motion node dict `{"f", "d", "k", "v"}`; an axis slot holds
`none` while no keyframe has filled it (Python `None`). -/
structure MNode where
  f : ℚ
  d : Option ℚ
  k : String
  v : List (Option AxVal)
deriving DecidableEq

/-- Python `l[i] = x`: `none` models the `IndexError` raised when the
index is out of range. -/
def listSet {α : Type} : List α → ℕ → α → Option (List α)
  | [], _, _ => none
  | _ :: rest, 0, x => some (x :: rest)
  | y :: rest, n + 1, x => (listSet rest n x).map (y :: ·)

/-- The `for mot in motion` scan of `export_action`: find the first
node whose frame is within `ACTION_PRECISION` of the new node's frame
and store the value in its axis slot; `none` means no node matched. -/
def mergeInto (val : AxVal) (idx : ℕ) (f : ℚ) :
    List MNode → Option (Except String (List MNode))
  | [] => none
  | m :: rest =>
    if |m.f - f| < ACTION_PRECISION then
      some (match listSet m.v idx (some val) with
        | some v1 => .ok ({ m with v := v1 } :: rest)
        | none => .error "IndexError")
    else (mergeInto val idx f rest).map (fun r => r.map (m :: ·))

/-- One step of the node-merging loop of `export_action`: either store
the value into the first frame-matching node, or create a fresh node
(`[None, None, None]` axis slots, one more for rotation) and append
it. -/
def mergeStep (kind : String) (motion : List MNode) (raw : RawNode) :
    Except String (List MNode) :=
  let idx := raw.1
  let node := raw.2.1
  let handles := raw.2.2
  let val : AxVal := { r := (node.v, none), handles := handles, e := node.e, c := node.c, b := none }
  match mergeInto val idx node.f motion with
  | some res => res
  | none =>
    let slots : ℕ := if kind = "rot" then 4 else 3
    let mnode : MNode := { f := node.f, d := none, k := kind, v := List.replicate slots none }
    match listSet mnode.v idx (some val) with
    | some v1 => .ok (motion ++ [{ mnode with v := v1 }])
    | none => .error "IndexError"

/-- One axis of the segment-derivation loop: reading an unfilled slot
(Python `None`) raises a `TypeError`; otherwise `c["r"][1]` is set to
the next node's start value and, when the interpolation is (default)
bezier, the bezier offsets are recorded from the adjacent handles. -/
def segAxis (c n : Option AxVal) : Except String (Option AxVal) :=
  match c, n with
  | some cv, some nv =>
    let cv1 : AxVal := { cv with r := (cv.r.1, some nv.r.1) }
    let cv2 : AxVal :=
      if cv1.c = none ∨ cv1.c = some "bezier" then
        { cv1 with
          b := some (cv.handles.right.1, cv.handles.right.2, nv.handles.left.1, nv.handles.left.2) }
      else cv1
    .ok (some cv2)
  | _, _ => .error "TypeError"

/-- The segment-derivation loop of `export_action`
(`for i in range(len(motion) - 1)`): each node but the last gets its
duration (raising when it is below `ACTION_PRECISION`) and its per-axis
segment data derived from the following node. -/
def deriveSegments : List MNode → Except String (List MNode)
  | [] => .ok []
  | [m] => .ok [m]
  | curr :: next :: rest => do
    let duration := next.f - curr.f
    if duration < ACTION_PRECISION then
      throw "Duration is too short"
    else
      let v1 ← (curr.v.zip next.v).mapM (fun p => segAxis p.1 p.2)
      let tail ← deriveSegments (next :: rest)
      pure ({ curr with d := some duration, v := v1 } :: tail)

/-- An emitted per-axis segment value after the cleanup loop
(`handles` deleted, `r` fully determined). -/
structure OutVal where
  r : ℚ × ℚ
  e : Option String
  c : Option String
  b : Option (ℚ × ℚ × ℚ × ℚ)
deriving DecidableEq

/-- The cleanup of one axis value in the final loop of `export_action`:
delete `handles` (a `None` slot raises), read `[fr, to]` (a `None`
`to` raises), and demote a bezier segment with
`|to - fr| < ACTION_PRECISION` to a plain line without offsets. -/
def finalizeVal : Option AxVal → Except String OutVal
  | none => .error "TypeError"
  | some v =>
    match v.r.2 with
    | none => .error "TypeError"
    | some tv =>
      match v.b with
      | some bv =>
        if |tv - v.r.1| < ACTION_PRECISION then
          .ok { r := (v.r.1, tv), e := v.e, c := some "line", b := none }
        else
          .ok { r := (v.r.1, tv), e := v.e, c := v.c, b := some bv }
      | none => .ok { r := (v.r.1, tv), e := v.e, c := v.c, b := none }

/-- An emitted motion node. -/
structure ONode where
  f : ℚ
  d : Option ℚ
  k : String
  v : List OutVal
deriving DecidableEq

/-- The final per-node loop of `export_action`: clean every axis value
up, then for rotation nodes reorder the axis list from the internal
`[w, x, y, z]` to the emitted `[x, y, z, w]` (unpacking any other
length raises). -/
def finalizeNode (m : MNode) : Except String ONode := do
  let vs ← m.v.mapM finalizeVal
  if m.k = "rot" then
    match vs with
    | [w, x, y, z] => pure { f := m.f, d := m.d, k := m.k, v := [x, y, z, w] }
    | _ => throw "ValueError"
  else pure { f := m.f, d := m.d, k := m.k, v := vs }

/-- Sorting a motion-node list by frame.  Python's `list.sort` is a
stable sort and a stable sort is uniquely determined by the comparison,
so the structural `insertionSort` is an exact model. -/
def sortNodes (motion : List MNode) : List MNode :=
  motion.insertionSort (fun a b => a.f ≤ b.f)

/-- Everything `export_action` does with one `motions` entry: merge the
raw nodes frame-wise, sort by frame, derive segments, drop the terminal
node (`motion[:-1]`) and clean the remaining nodes up. -/
def processPath (kind : String) (raws : List RawNode) : Except String (List ONode) := do
  let motion ← raws.foldlM (mergeStep kind) []
  let derived ← deriveSegments (sortNodes motion)
  derived.dropLast.mapM finalizeNode

/-- The action output tree. -/
structure ActionOut where
  range : ℚ × ℚ
  objects : List (String × List ONode)
deriving DecidableEq

/-- Embedding of `export_action` from rt_export.py. -/
def export_action (act : Action) : Except String ActionOut := do
  let st ← phase1 act
  let objects ← st.motions.foldlM (fun objs pr => do
      let motion ← processPath pr.1.2 pr.2
      pure (dextend objs pr.1.1 motion)) ([] : List (String × List ONode))
  match st.start, st.stop with
  | some s, some e => pure { range := (s, e), objects := objects }
  | _, _ => .error "Failed to export an empty action"

/-! Skeleton export (`export_skeleton`, `rot_adjust` in rt_export.py). -/

/-- Snapshot of an armature bone: name, parent presence, `head_local`,
`tail_local`, the local rotation quaternion in `(w, x, y, z)` order
(the value `b.matrix_local.to_quaternion()` produces; the matrix
conversion itself is Blender library code) and the child name list. -/
structure SBone where
  name : String
  parent : Option String
  head_local : ℚ × ℚ × ℚ
  tail_local : ℚ × ℚ × ℚ
  rotq : ℚ × ℚ × ℚ × ℚ
  children : List String
deriving DecidableEq

/-- Snapshot of an armature. -/
structure Skeleton where
  bones : List SBone
deriving DecidableEq

/-- Hamilton product of two quaternions in `(w, x, y, z)` component
order — the `@` operator of `mathutils.Quaternion`. -/
def quatMul (a b : ℚ × ℚ × ℚ × ℚ) : ℚ × ℚ × ℚ × ℚ :=
  let aw := a.1; let ax := a.2.1; let ay := a.2.2.1; let az := a.2.2.2
  let bw := b.1; let bx := b.2.1; let byy := b.2.2.1; let bz := b.2.2.2
  (aw * bw - ax * bx - ay * byy - az * bz,
   aw * bx + ax * bw + ay * bz - az * byy,
   aw * byy - ax * bz + ay * bw + az * bx,
   aw * bz + ax * byy - ay * bx + az * bw)

/-- Embedding of `ROT_ADJUSTMENT = mathutils.Quaternion((0.70710678118,
-0.70710678118, 0, 0))` (constructor order `(w, x, y, z)`). -/
def ROT_ADJUSTMENT : ℚ × ℚ × ℚ × ℚ :=
  (70710678118 / 100000000000, -70710678118 / 100000000000, 0, 0)

/-- Embedding of `rot_adjust` from rt_export.py: multiply by the fixed
corrective quaternion and emit `[x, y, z, w]`.  Note: no rounding is
applied here. -/
def rot_adjust (rot : ℚ × ℚ × ℚ × ℚ) : List ℚ :=
  let res := quatMul ROT_ADJUSTMENT rot
  [res.2.1, res.2.2.1, res.2.2.2, res.1]

/-- An emitted bone record; an empty `c` list models the omitted
children key. -/
structure BoneOut where
  h : List ℚ
  t : List ℚ
  r : List ℚ
  c : List String
deriving DecidableEq

/-- The skeleton output tree. -/
structure SkelOut where
  root : Option String
  bones : List (String × BoneOut)
deriving DecidableEq

/-- The `for b in skeleton.bones: if b.parent is None: root = b.name;
break / else: root = None` loop: the FIRST parentless bone is taken,
silently, and `None` results when there is none. -/
def findRoot : List SBone → Option String
  | [] => none
  | b :: rest => if b.parent = none then some b.name else findRoot rest

/-- Python dict assignment `bones[b.name] = bone`: replace in place
when the key exists, append otherwise. -/
def dictSet : List (String × BoneOut) → String → BoneOut → List (String × BoneOut)
  | [], k, x => [(k, x)]
  | (k0, v) :: rest, k, x =>
    if k0 = k then (k0, x) :: rest else (k0, v) :: dictSet rest k x

/-- The per-bone record built by `export_skeleton`. -/
def boneRecord (b : SBone) : BoneOut :=
  let hx := b.head_local.1; let hy := b.head_local.2.1; let hz := b.head_local.2.2
  let tx := b.tail_local.1; let ty := b.tail_local.2.1; let tz := b.tail_local.2.2
  { h := norm_list [hx, hz, -hy], t := norm_list [tx, tz, -ty],
    r := rot_adjust b.rotq, c := b.children }

/-- Embedding of `export_skeleton` from rt_export.py.  The function is
total: no error is ever raised, whatever the number of parentless
bones. -/
def export_skeleton (sk : Skeleton) : SkelOut :=
  { root := findRoot sk.bones,
    bones := sk.bones.foldl (fun acc b => dictSet acc b.name (boneRecord b)) [] }

/-! Concrete inputs used to witness or refute individual claims. -/

/-- A flat triangle with unit-Z normals and given vertex index. -/
def mkVert (i : ℕ) (x y z : ℚ) : BVert := ⟨(x, y, z), (0, 0, 1), i⟩

/-- Mesh with two geometrically identical triangles whose face-map
layer values differ (`-1` vs `-2`, both negative so no slot is
recorded). -/
def c1md : MeshData :=
  { faces :=
      [⟨-1, [mkVert 0 0 0 0, mkVert 1 1 0 0, mkVert 2 0 1 0], [⟨0⟩, ⟨1⟩, ⟨2⟩]⟩,
       ⟨-2, [mkVert 0 0 0 0, mkVert 1 1 0 0, mkVert 2 0 1 0], [⟨3⟩, ⟨4⟩, ⟨5⟩]⟩],
    uvLayer := [(0, 0), (1, 0), (0, 1), (0, 0), (1, 0), (0, 1)],
    faceMaps := [], vertexGroups := [], vertices := [] }

/-- The corner-record state `meshLoop` produces on `c1md`. -/
def c1st : MeshLoopState :=
  { verts :=
      [⟨[0, 0, 0], [0, 1, 0], [0, 1], -1⟩,
       ⟨[1, 0, 0], [0, 1, 0], [1, 1], -1⟩,
       ⟨[0, 0, -1], [0, 1, 0], [0, 0], -1⟩,
       ⟨[0, 0, 0], [0, 1, 0], [0, 1], -2⟩,
       ⟨[1, 0, 0], [0, 1, 0], [1, 1], -2⟩,
       ⟨[0, 0, -1], [0, 1, 0], [0, 0], -2⟩],
    old_indxs := [0, 1, 2, 0, 1, 2],
    slots := [] }

/-- Single-triangle mesh whose first UV u-coordinate `0.1234567` has
more than 6 decimal digits, with one vertex group of weight `1/2` on
vertex 0 and `-3/10` on vertex 1. -/
def c2md : MeshData :=
  { faces := [⟨-1, [mkVert 0 0 0 0, mkVert 1 1 0 0, mkVert 2 0 1 0], [⟨0⟩, ⟨1⟩, ⟨2⟩]⟩],
    uvLayer := [(1234567/10000000, 0), (0, 0), (0, 0)],
    faceMaps := [], vertexGroups := [(0, "grp")],
    vertices := [⟨0, [⟨0, 1/2⟩]⟩, ⟨1, [⟨0, -3/10⟩]⟩] }

/-- A bone with the given name and parent. -/
def mkBone (n : String) (p : Option String) : SBone :=
  ⟨n, p, (0, 0, 0), (0, 1, 0), (1, 0, 0, 0), []⟩

/-- Skeleton with two parentless bones. -/
def skTwoRoots : Skeleton := ⟨[mkBone "a" none, mkBone "b" none]⟩

/-- Skeleton whose only bone has a parent (zero parentless bones). -/
def skZeroRoots : Skeleton := ⟨[mkBone "x" (some "a")]⟩

/-- A bezier keyframe with default easing and zero handles. -/
def kfB (f v : ℚ) : Keyframe := ⟨f, v, "BEZIER", "AUTO", (0, 0), (0, 0)⟩

/-- A linear keyframe with default easing and zero handles. -/
def kfL (f v : ℚ) : Keyframe := ⟨f, v, "LINEAR", "AUTO", (0, 0), (0, 0)⟩

/-- Action with location keyframes at frames 0, 10, 20 and scale
keyframes at frames 5, 20 on the same object, all three axes each. -/
def c7act : Action :=
  ⟨(List.range 3).map (fun i => ⟨i, "pose.bones[\"A\"].location", [kfL 0 0, kfL 10 1, kfL 20 2]⟩) ++
   (List.range 3).map (fun i => ⟨i, "pose.bones[\"A\"].scale", [kfL 5 0, kfL 20 1]⟩)⟩

/-- Raw motion nodes for the C7 witness: one axis triple at frame 0 and
one at frame 10, all values 2, default bezier interpolation. -/
def c7wRaw (idx : ℕ) (f v : ℚ) : RawNode :=
  (idx, ⟨f, v, none, none⟩, ⟨(0, 0), (0, 0)⟩)

/-- Raw node list covering axes 0..2 at frames 0 and 10. -/
def c7wRaws : List RawNode :=
  [c7wRaw 0 0 2, c7wRaw 1 0 2, c7wRaw 2 0 2, c7wRaw 0 10 2, c7wRaw 1 10 2, c7wRaw 2 10 2]

/-- Action whose single f-curve has an unrecognised data path. -/
def c9foo : FCurve := ⟨0, "foo", [kfB 100 5]⟩

/-- A recognised location f-curve used alongside `c9foo`. -/
def c9loc : FCurve := ⟨0, "objects[\"X\"].location", [kfB 0 5]⟩

/-- Action with one location f-curve whose two keyframes land on the
same rounded frame (0 and 0.0000001). -/
def c10act : Action := ⟨[⟨0, "objects[\"X\"].location", [kfB 0 5, kfB (1/10000000) 6]⟩]⟩

/-- The phase-1 state `c10act` produces: a single path whose raw nodes
all sit at rounded frame 0. -/
def c10st : Phase1State :=
  { start := some 0, stop := some 0,
    motions := [(("X", "pos"),
      [(0, ⟨0, 5, none, none⟩, ⟨(0, 0), (0, 0)⟩),
       (0, ⟨0, 6, none, none⟩, ⟨(0, 0), (0, 0)⟩)])] }

/-- An axis value with all data zero except the stored segment range. -/
def c6Val : AxVal := ⟨(0, none), ⟨(0, 0), (0, 0)⟩, none, none, none⟩

/-- A motion node at the given frame with three filled axis slots. -/
def c6Node (f : ℚ) : MNode := ⟨f, none, "pos", [some c6Val, some c6Val, some c6Val]⟩

/-- The result of segment derivation on `[c6Node 0, c6Node 3]`. -/
def c6Out : List MNode :=
  [⟨0, some 3, "pos",
    [some ⟨(0, some 0), ⟨(0, 0), (0, 0)⟩, none, none, some (0, 0, 0, 0)⟩,
     some ⟨(0, some 0), ⟨(0, 0), (0, 0)⟩, none, none, some (0, 0, 0, 0)⟩,
     some ⟨(0, some 0), ⟨(0, 0), (0, 0)⟩, none, none, some (0, 0, 0, 0)⟩]⟩,
   c6Node 3]

/-- A flat bezier axis value for the C5 witness: both endpoint values
are 2, bezier offsets present. -/
def c5Val : AxVal := ⟨(2, some 2), ⟨(7, 8), (9, 10)⟩, none, none, some (1, 2, 3, 4)⟩

/-- A sample corner record used in the C1 witness. -/
def c1r : VertRec := ⟨[0], [0], [0], 0⟩

/-- The mesh output of `export_mesh` on `c1md`: six vertices (no
deduplication across the two faces, because the face-map values
differ) and the identity index buffer. -/
def c1out : MeshOut :=
  { verts :=
      [⟨[0, 0, 0], [0, 1, 0], [0, 1]⟩, ⟨[1, 0, 0], [0, 1, 0], [1, 1]⟩,
       ⟨[0, 0, -1], [0, 1, 0], [0, 0]⟩, ⟨[0, 0, 0], [0, 1, 0], [0, 1]⟩,
       ⟨[1, 0, 0], [0, 1, 0], [1, 1]⟩, ⟨[0, 0, -1], [0, 1, 0], [0, 0]⟩],
    indxs := [0, 1, 2, 3, 4, 5],
    groups := [], slots := [] }

/-- The mesh output of `export_mesh` on `c2md`: the first UV
u-coordinate is emitted verbatim with 7 decimal digits. -/
def c2out : MeshOut :=
  { verts :=
      [⟨[0, 0, 0], [0, 1, 0], [1234567/10000000, 1]⟩,
       ⟨[1, 0, 0], [0, 1, 0], [0, 1]⟩,
       ⟨[0, 0, -1], [0, 1, 0], [0, 1]⟩],
    indxs := [0, 1, 2],
    groups := [("grp", [(0, 1/2)])], slots := [] }

/-- Action with one linear location channel on all three axes,
keyframes at frames 0 and 10. -/
def c2act : Action :=
  ⟨[⟨0, "objects[\"Z\"].location", [kfL 0 1, kfL 10 2]⟩,
    ⟨1, "objects[\"Z\"].location", [kfL 0 1, kfL 10 2]⟩,
    ⟨2, "objects[\"Z\"].location", [kfL 0 1, kfL 10 2]⟩]⟩

/-- The action output of `export_action` on `c2act`. -/
def c2aout : ActionOut :=
  { range := (0, 10),
    objects := [("Z",
      [⟨0, some 10, "pos",
        [⟨(1, 2), none, some "line", none⟩,
         ⟨(1, 2), none, some "line", none⟩,
         ⟨(1, 2), none, some "line", none⟩]⟩])] }

/-- The merged motion-node list produced from `c7wRaws`. -/
def c7wMot : List MNode :=
  [⟨0, none, "pos",
    [some ⟨(2, none), ⟨(0, 0), (0, 0)⟩, none, none, none⟩,
     some ⟨(2, none), ⟨(0, 0), (0, 0)⟩, none, none, none⟩,
     some ⟨(2, none), ⟨(0, 0), (0, 0)⟩, none, none, none⟩]⟩,
   ⟨10, none, "pos",
    [some ⟨(2, none), ⟨(0, 0), (0, 0)⟩, none, none, none⟩,
     some ⟨(2, none), ⟨(0, 0), (0, 0)⟩, none, none, none⟩,
     some ⟨(2, none), ⟨(0, 0), (0, 0)⟩, none, none, none⟩]⟩]

/-- The node list `processPath` emits for `c7wRaws`. -/
def c7wOut : List ONode :=
  [⟨0, some 10, "pos",
    [⟨(2, 2), none, some "line", none⟩,
     ⟨(2, 2), none, some "line", none⟩,
     ⟨(2, 2), none, some "line", none⟩]⟩]

/-- One-bone skeleton with a zero rotation quaternion (so the emitted
rotation components are all zero). -/
def c2sk : Skeleton := ⟨[⟨"s", none, (0, 0, 0), (0, 1, 0), (0, 0, 0, 0), []⟩]⟩

/-! Basic facts about the rounding function `norm`. -/

theorem rhe_intCast (n : ℤ) : rhe (n : ℚ) = n := by
  simp [rhe, Rat.num_intCast, Rat.den_intCast, Int.fdiv_one]

theorem norm_int_div (n : ℤ) : norm ((n : ℚ) / 1000000) = (n : ℚ) / 1000000 := by
  have h : ((n : ℚ) / 1000000) * 1000000 = (n : ℚ) := by
    field_simp
  rw [norm, h, rhe_intCast]

theorem normFixed_iff (q : ℚ) : NormFixed q ↔ ∃ n : ℤ, q = (n : ℚ) / 1000000 := by
  constructor
  · intro h
    exact ⟨rhe (q * 1000000), h.symm⟩
  · rintro ⟨n, rfl⟩
    exact norm_int_div n

theorem normFixed_norm (q : ℚ) : NormFixed (norm q) := by
  rw [normFixed_iff]
  exact ⟨rhe (q * 1000000), rfl⟩

theorem normFixed_sub {a b : ℚ} (ha : NormFixed a) (hb : NormFixed b) :
    NormFixed (a - b) := by
  rw [normFixed_iff] at ha hb ⊢
  obtain ⟨m, rfl⟩ := ha
  obtain ⟨n, rfl⟩ := hb
  refine ⟨m - n, ?_⟩
  push_cast
  ring

theorem normFixed_min {a b : ℚ} (ha : NormFixed a) (hb : NormFixed b) :
    NormFixed (min a b) := by
  rcases le_total a b with h | h
  · rwa [min_eq_left h]
  · rwa [min_eq_right h]

theorem normFixed_max {a b : ℚ} (ha : NormFixed a) (hb : NormFixed b) :
    NormFixed (max a b) := by
  rcases le_total a b with h | h
  · rwa [max_eq_right h]
  · rwa [max_eq_left h]

/-! Generic helper lemmas about the `Except` monad, folds and the small
dictionary operations. -/

theorem except_bind_ok {α β : Type} (a : α) (f : α → Except String β) :
    (Except.ok a >>= f) = f a := rfl

theorem except_bind_err {α β : Type} (e : String) (f : α → Except String β) :
    ((Except.error e : Except String α) >>= f) = .error e := rfl

theorem except_pure_eq {α : Type} (a : α) : (pure a : Except String α) = .ok a := rfl

theorem foldlM_inv {α β : Type} {P : β → Prop} (f : β → α → Except String β) :
    ∀ l : List α, (∀ b a, a ∈ l → ∀ b', f b a = .ok b' → P b → P b') →
      ∀ b0 bf, l.foldlM f b0 = .ok bf → P b0 → P bf := by
  intro l
  induction l with
  | nil =>
    intro _ b0 bf h hp
    simp only [List.foldlM_nil, except_pure_eq, Except.ok.injEq] at h
    exact h ▸ hp
  | cons a t ih =>
    intro hstep b0 bf h hp
    rw [List.foldlM_cons] at h
    cases hfa : f b0 a with
    | error e => rw [hfa, except_bind_err] at h; exact Except.noConfusion h
    | ok b1 =>
      rw [hfa, except_bind_ok] at h
      exact ih (fun b x hx => hstep b x (List.mem_cons_of_mem _ hx)) b1 bf h
        (hstep b0 a (List.mem_cons_self _ _) b1 hfa hp)

theorem mapM_ok_forall {α β : Type} {R : β → Prop} (f : α → Except String β) :
    ∀ (l : List α) (out : List β), l.mapM f = .ok out →
      (∀ a ∈ l, ∀ b, f a = .ok b → R b) → ∀ b ∈ out, R b := by
  intro l
  induction l with
  | nil =>
    intro out h _
    simp only [List.mapM_nil, except_pure_eq, Except.ok.injEq] at h
    intro b hb
    rw [← h] at hb
    exact absurd hb (List.not_mem_nil b)
  | cons a t ih =>
    intro out h hR
    rw [List.mapM_cons] at h
    cases hfa : f a with
    | error e => rw [hfa, except_bind_err] at h; exact Except.noConfusion h
    | ok b1 =>
      rw [hfa, except_bind_ok] at h
      cases ht : t.mapM f with
      | error e => rw [ht, except_bind_err] at h; exact Except.noConfusion h
      | ok bs =>
        rw [ht, except_bind_ok, except_pure_eq, Except.ok.injEq] at h
        intro b hb
        rw [← h] at hb
        rcases List.mem_cons.mp hb with rfl | hb2
        · exact hR a (List.mem_cons_self _ _) b hfa
        · exact ih bs ht (fun x hx => hR x (List.mem_cons_of_mem _ hx)) b hb2

theorem mapM_ok_map {α β γ : Type} (f : α → Except String β) (g : β → γ) (gh : α → γ) :
    ∀ (l : List α) (out : List β), l.mapM f = .ok out →
      (∀ a ∈ l, ∀ b, f a = .ok b → g b = gh a) → out.map g = l.map gh := by
  intro l
  induction l with
  | nil =>
    intro out h _
    simp only [List.mapM_nil, except_pure_eq, Except.ok.injEq] at h
    rw [← h]
    rfl
  | cons a t ih =>
    intro out h hR
    rw [List.mapM_cons] at h
    cases hfa : f a with
    | error e => rw [hfa, except_bind_err] at h; exact Except.noConfusion h
    | ok b1 =>
      rw [hfa, except_bind_ok] at h
      cases ht : t.mapM f with
      | error e => rw [ht, except_bind_err] at h; exact Except.noConfusion h
      | ok bs =>
        rw [ht, except_bind_ok, except_pure_eq, Except.ok.injEq] at h
        rw [← h, List.map_cons, List.map_cons,
          hR a (List.mem_cons_self _ _) b1 hfa,
          ih bs ht (fun x hx => hR x (List.mem_cons_of_mem _ hx))]

theorem dextend_val_mem {K V : Type} [DecidableEq K] :
    ∀ (m : List (K × List V)) (k : K) (xs : List V) (p : K × List V) (x : V),
      p ∈ dextend m k xs → x ∈ p.2 → (∃ q ∈ m, x ∈ q.2) ∨ x ∈ xs := by
  intro m
  induction m with
  | nil =>
    intro k xs p x hp hx
    simp only [dextend, List.mem_singleton] at hp
    rw [hp] at hx
    exact Or.inr hx
  | cons q0 rest ih =>
    intro k xs p x hp hx
    by_cases hk : q0.1 = k
    · simp only [dextend, hk, if_pos rfl] at hp
      rcases List.mem_cons.mp hp with rfl | hrest
      · rcases List.mem_append.mp hx with h1 | h2
        · exact Or.inl ⟨q0, List.mem_cons_self _ _, h1⟩
        · exact Or.inr h2
      · exact Or.inl ⟨p, List.mem_cons_of_mem _ hrest, hx⟩
    · rw [show dextend (q0 :: rest) k xs = (q0.1, q0.2) :: dextend rest k xs by
        simp [dextend, hk]] at hp
      rcases List.mem_cons.mp hp with rfl | hrest
      · exact Or.inl ⟨q0, List.mem_cons_self _ _, hx⟩
      · rcases ih k xs p x hrest hx with ⟨q, hq, hxq⟩ | h2
        · exact Or.inl ⟨q, List.mem_cons_of_mem _ hq, hxq⟩
        · exact Or.inr h2

theorem dappend_val_mem {K V : Type} [DecidableEq K] :
    ∀ (m : List (K × List V)) (k : K) (y : V) (p : K × List V) (x : V),
      p ∈ dappend m k y → x ∈ p.2 → (∃ q ∈ m, x ∈ q.2) ∨ x = y := by
  intro m
  induction m with
  | nil =>
    intro k y p x hp hx
    simp only [dappend, List.mem_singleton] at hp
    rw [hp] at hx
    exact Or.inr (List.mem_singleton.mp hx)
  | cons q0 rest ih =>
    intro k y p x hp hx
    by_cases hk : q0.1 = k
    · rw [show dappend (q0 :: rest) k y = (q0.1, q0.2 ++ [y]) :: rest by
        simp [dappend, hk]] at hp
      rcases List.mem_cons.mp hp with rfl | hrest
      · rcases List.mem_append.mp hx with h1 | h2
        · exact Or.inl ⟨q0, List.mem_cons_self _ _, h1⟩
        · exact Or.inr (List.mem_singleton.mp h2)
      · exact Or.inl ⟨p, List.mem_cons_of_mem _ hrest, hx⟩
    · rw [show dappend (q0 :: rest) k y = (q0.1, q0.2) :: dappend rest k y by
        simp [dappend, hk]] at hp
      rcases List.mem_cons.mp hp with rfl | hrest
      · exact Or.inl ⟨q0, List.mem_cons_self _ _, hx⟩
      · rcases ih k y p x hrest hx with ⟨q, hq, hxq⟩ | h2
        · exact Or.inl ⟨q, List.mem_cons_of_mem _ hq, hxq⟩
        · exact Or.inr h2

theorem dictSet_mem :
    ∀ (m : List (String × BoneOut)) (k : String) (x : BoneOut) (p : String × BoneOut),
      p ∈ dictSet m k x → p ∈ m ∨ p = (k, x) := by
  intro m
  induction m with
  | nil =>
    intro k x p hp
    exact Or.inr (List.mem_singleton.mp hp)
  | cons q0 rest ih =>
    intro k x p hp
    by_cases hk : q0.1 = k
    · rw [show dictSet (q0 :: rest) k x = (q0.1, x) :: rest by simp [dictSet, hk]] at hp
      rcases List.mem_cons.mp hp with rfl | hrest
      · exact Or.inr (by rw [hk])
      · exact Or.inl (List.mem_cons_of_mem _ hrest)
    · rw [show dictSet (q0 :: rest) k x = (q0.1, q0.2) :: dictSet rest k x by
        simp [dictSet, hk]] at hp
      rcases List.mem_cons.mp hp with rfl | hrest
      · exact Or.inl (List.mem_cons_self _ _)
      · rcases ih k x p hrest with h1 | h2
        · exact Or.inl (List.mem_cons_of_mem _ h1)
        · exact Or.inr h2

theorem mem_of_mem_dropLast {α : Type} :
    ∀ (l : List α) (x : α), x ∈ l.dropLast → x ∈ l := by
  intro l
  induction l with
  | nil => intro x hx; exact absurd hx (List.not_mem_nil x)
  | cons a t ih =>
    intro x hx
    cases t with
    | nil => exact absurd hx (List.not_mem_nil x)
    | cons b t2 =>
      rw [List.dropLast_cons₂] at hx
      rcases List.mem_cons.mp hx with rfl | hx2
      · exact List.mem_cons_self _ _
      · exact List.mem_cons_of_mem _ (ih x hx2)

theorem listSet_length {α : Type} :
    ∀ (l : List α) (i : ℕ) (x : α) (l2 : List α),
      listSet l i x = some l2 → l2.length = l.length := by
  intro l
  induction l with
  | nil => intro i x l2 h; exact Option.noConfusion h
  | cons a t ih =>
    intro i x l2 h
    cases i with
    | zero =>
      simp only [listSet, Option.some.injEq] at h
      rw [← h]
      rfl
    | succ n =>
      simp only [listSet, Option.map_eq_some'] at h
      obtain ⟨l3, h3, rfl⟩ := h
      simp [ih n x l3 h3]

theorem listSet_isSome {α : Type} :
    ∀ (l : List α) (i : ℕ) (x : α), i < l.length →
      ∃ l2, listSet l i x = some l2 := by
  intro l
  induction l with
  | nil => intro i x h; exact absurd h (by simp)
  | cons a t ih =>
    intro i x h
    cases i with
    | zero => exact ⟨x :: t, rfl⟩
    | succ n =>
      obtain ⟨l2, h2⟩ := ih n x (by simpa using Nat.lt_of_succ_lt_succ h)
      exact ⟨a :: l2, by simp [listSet, h2]⟩

/-! Claim C3: root detection.  The claim states the export fails with
`AmbiguousRoot` when there is not exactly one parentless bone; in the
code `export_skeleton` is total and silently takes the first parentless
bone (or `None` when there is none). -/

/-- C3 (counterexample): on a skeleton with two parentless bones the
export succeeds and silently reports the first one as root, and on a
skeleton with zero parentless bones it succeeds with root `None`; no
`AmbiguousRoot` (or any other) failure occurs, contradicting the
claim. -/
theorem C3_counterexample :
    (export_skeleton skTwoRoots).root = some "a" ∧
    (export_skeleton skTwoRoots).bones.length = 2 ∧
    (export_skeleton skZeroRoots).root = none := by
  refine ⟨?_, ?_, ?_⟩ <;> with_unfolding_all rfl

/-- C3 (amended): `export_skeleton` never fails; its root is the name
of the FIRST parentless bone in iteration order, or `None` when no
bone is parentless (so two parentless bones silently yield the first,
rather than an `AmbiguousRoot` error). -/
theorem C3_root_is_first_parentless (sk : Skeleton) :
    (export_skeleton sk).root =
      (sk.bones.find? (fun b => b.parent.isNone)).map SBone.name := by
  show findRoot sk.bones = _
  induction sk.bones with
  | nil => rfl
  | cons b rest ih =>
    by_cases h : b.parent = none
    · rw [List.find?_cons_of_pos _ (by simp [h])]
      simp [findRoot, h]
    · rw [List.find?_cons_of_neg _ (by simp [Option.isNone_iff_eq_none, h])]
      simp only [findRoot, if_neg h]
      exact ih

/-! Claim C4: NaN/Inf rejection.  The claim states NaN/Inf inputs make
the export fail with `InvalidNumeric`; in the code `norm` (the only
numeric gate) simply returns non-finite values unchanged — CPython's
`round(v, 6)` does not raise for them — and no `InvalidNumeric` error
exists anywhere in the source. -/

/-- C4 (counterexample): `norm` applied to Inf, -Inf or NaN returns the
value unchanged instead of failing: there is no `InvalidNumeric`
rejection in the code. -/
theorem C4_counterexample :
    normE .inf = .inf ∧ normE .ninf = .ninf ∧ normE .nan = .nan :=
  ⟨rfl, rfl, rfl⟩

/-- C4 (amended): the numeric conversion `norm` is a pure total
function with NO failure modes at all: on finite inputs it rounds, and
NaN/Inf inputs are propagated unchanged to the output (finiteness is
preserved exactly) rather than rejected. -/
theorem C4_norm_total :
    (∀ q : ℚ, normE (.fin q) = .fin (norm q)) ∧
    (∀ x : EF, (normE x).isFinite = x.isFinite) := by
  refine ⟨fun q => rfl, fun x => ?_⟩
  cases x <;> rfl

/-! Claim C5: flat-bezier demotion.  `finalizeVal` is the cleanup the
final loop of `export_action` applies to every emitted axis segment. -/

/-- C5: for every axis segment that carries bezier offsets (`b`
present, i.e. a bezier segment) whose endpoint values differ by less
than `ACTION_PRECISION`, the cleanup emits the segment with
interpolation tag `"line"` and no bezier offsets, whatever the handle
shape was. -/
theorem C5_flat_bezier_demoted (v : AxVal) (tv : ℚ) (bv : ℚ × ℚ × ℚ × ℚ)
    (hr : v.r.2 = some tv) (hb : v.b = some bv)
    (hflat : |tv - v.r.1| < ACTION_PRECISION) :
    finalizeVal (some v) = .ok { r := (v.r.1, tv), e := v.e, c := some "line", b := none } := by
  simp [finalizeVal, hr, hb, hflat]

/-- C5 (witness): the theorem applied to a concrete flat bezier
segment with endpoints 2 and 2 and non-trivial handles. -/
theorem C5_witness :
    finalizeVal (some c5Val) = .ok ⟨(2, 2), none, some "line", none⟩ :=
  C5_flat_bezier_demoted c5Val 2 (1, 2, 3, 4) rfl rfl (by with_unfolding_all decide)

/-! Claim C6: segment durations.  The segment-derivation loop operates
on the frame-sorted node sequence of one object and motion kind. -/

theorem derive_ok_spec :
    ∀ motion out, deriveSegments motion = .ok out →
      ∀ i curr next, motion[i]? = some curr → motion[i + 1]? = some next →
        ¬(next.f - curr.f < ACTION_PRECISION) ∧
        ∃ o, out[i]? = some o ∧ o.f = curr.f ∧ o.d = some (next.f - curr.f) := by
  intro motion
  induction motion with
  | nil => intro out h i curr next hc hn; simp at hc
  | cons m rest ih =>
    cases rest with
    | nil =>
      intro out h i curr next hc hn
      cases i with
      | zero => simp at hn
      | succ n => simp at hc
    | cons next0 rest2 =>
      intro out h i curr next hc hn
      by_cases hd : next0.f - m.f < ACTION_PRECISION
      · rw [deriveSegments, if_pos hd] at h
        exact Except.noConfusion h
      · rw [deriveSegments, if_neg hd] at h
        cases hv : ((m.v.zip next0.v).mapM fun p => segAxis p.1 p.2) with
        | error e => rw [hv, except_bind_err] at h; exact Except.noConfusion h
        | ok v1 =>
          rw [hv, except_bind_ok] at h
          cases ht : deriveSegments (next0 :: rest2) with
          | error e => rw [ht, except_bind_err] at h; exact Except.noConfusion h
          | ok tail =>
            rw [ht, except_bind_ok, except_pure_eq, Except.ok.injEq] at h
            cases i with
            | zero =>
              rw [List.getElem?_cons_zero, Option.some.injEq] at hc
              rw [List.getElem?_cons_succ, List.getElem?_cons_zero, Option.some.injEq] at hn
              subst hc
              subst hn
              refine ⟨hd, ⟨{ m with d := some (next0.f - m.f), v := v1 }, ?_, rfl, rfl⟩⟩
              rw [← h]
              exact List.getElem?_cons_zero
            | succ n =>
              rw [List.getElem?_cons_succ] at hc hn
              obtain ⟨hlt, o, ho, hof, hod⟩ := ih tail ht n curr next hc hn
              refine ⟨hlt, ⟨o, ?_, hof, hod⟩⟩
              rw [← h, List.getElem?_cons_succ]
              exact ho

/-- C6: in the segment-derivation loop of `export_action`, for every
pair of adjacent nodes of the frame-sorted sequence, (1) when the loop
succeeds the emitted node's duration is exactly `next.f - curr.f` and
that difference is at least `ACTION_PRECISION`, and (2) when the first
adjacent pair is closer than `ACTION_PRECISION`, the loop fails with
the degenerate-duration error ("Duration is too short"). -/
theorem C6_duration_check :
    (∀ motion out, deriveSegments motion = .ok out →
      ∀ i curr next, motion[i]? = some curr → motion[i + 1]? = some next →
        ¬(next.f - curr.f < ACTION_PRECISION) ∧
        ∃ o, out[i]? = some o ∧ o.f = curr.f ∧ o.d = some (next.f - curr.f)) ∧
    (∀ curr next rest, next.f - curr.f < ACTION_PRECISION →
      deriveSegments (curr :: next :: rest) = .error "Duration is too short") := by
  refine ⟨derive_ok_spec, fun curr next rest h => ?_⟩
  rw [deriveSegments, if_pos h]
  rfl

/-- C6 (witness): the theorem applied to the concrete sorted sequences
`[node@0, node@3]` (success: duration 3 emitted) and
`[node@0, node@0.0000005, node@9]` (first pair closer than the
precision: degenerate-duration failure). -/
theorem C6_witness :
    (¬((c6Node 3).f - (c6Node 0).f < ACTION_PRECISION) ∧
      ∃ o, c6Out[0]? = some o ∧ o.f = (c6Node 0).f ∧
        o.d = some ((c6Node 3).f - (c6Node 0).f)) ∧
    deriveSegments [c6Node 0, c6Node (1/2000000), c6Node 9] =
      .error "Duration is too short" := by
  constructor
  · exact C6_duration_check.1 [c6Node 0, c6Node 3] c6Out (by with_unfolding_all rfl)
      0 (c6Node 0) (c6Node 3) rfl rfl
  · exact C6_duration_check.2 (c6Node 0) (c6Node (1/2000000)) [c6Node 9]
      (by with_unfolding_all decide)

/-! Claim C1: vertex deduplication.  `make_indexes` compares the FULL
record dicts with `v == w`, and the record contains the raw
(unrounded) UV pair and the face-map value `map_idx`, so equality of
the rounded (position, normal, UV) triple alone does not imply equal
indices. -/

theorem firstIdx_of_not_mem (v : VertRec) :
    ∀ l : List VertRec, v ∉ l → firstIdx v l = l.length := by
  intro l
  induction l with
  | nil => intro _; rfl
  | cons w ws ih =>
    intro h
    have h1 : ¬(v = w) ∧ v ∉ ws := by simpa [List.mem_cons, not_or] using h
    have hw : ¬(w = v) := fun he => h1.1 he.symm
    simp [firstIdx, hw, ih h1.2]

theorem firstIdx_append (v : VertRec) :
    ∀ l1 l2 : List VertRec, firstIdx v (l1 ++ l2) =
      if v ∈ l1 then firstIdx v l1 else l1.length + firstIdx v l2 := by
  intro l1
  induction l1 with
  | nil => intro l2; simp
  | cons w ws ih =>
    intro l2
    by_cases hw : w = v
    · have hm : v ∈ w :: ws := by rw [hw]; exact List.mem_cons_self _ _
      simp [firstIdx, hw, hm]
    · have hvw : ¬(v = w) := fun he => hw he.symm
      rw [List.cons_append]
      show (if w = v then 0 else firstIdx v (ws ++ l2) + 1) = _
      rw [if_neg hw, ih l2]
      by_cases hv : v ∈ ws
      · have hm : v ∈ w :: ws := List.mem_cons_of_mem _ hv
        simp only [if_pos hv, if_pos hm, firstIdx, if_neg hw]
      · have hm : v ∉ w :: ws := by simp [List.mem_cons, not_or, hvw, hv]
        rw [if_neg hv, if_neg hm]
        simp only [List.length_cons, firstIdx, if_neg hw]
        omega

theorem mi_loop_fst_ext :
    ∀ vs verts : List VertRec, ∃ ext, (mi_loop verts vs).1 = verts ++ ext := by
  intro vs
  induction vs with
  | nil => intro verts; exact ⟨[], by simp [mi_loop]⟩
  | cons v vs2 ih =>
    intro verts
    by_cases hv : v ∈ verts
    · obtain ⟨ext, he⟩ := ih verts
      exact ⟨ext, by simp [mi_loop, hv, he]⟩
    · obtain ⟨ext, he⟩ := ih (verts ++ [v])
      refine ⟨[v] ++ ext, ?_⟩
      simp only [mi_loop, if_neg hv]
      rw [he, List.append_assoc]

theorem mi_loop_snd_length :
    ∀ vs verts : List VertRec, (mi_loop verts vs).2.length = vs.length := by
  intro vs
  induction vs with
  | nil => intro verts; rfl
  | cons v vs2 ih => intro verts; simp [mi_loop, ih]

theorem mi_loop_fst_length :
    ∀ vs verts : List VertRec,
      (mi_loop verts vs).1.length ≤ verts.length + vs.length := by
  intro vs
  induction vs with
  | nil => intro verts; simp [mi_loop]
  | cons v vs2 ih =>
    intro verts
    by_cases hv : v ∈ verts
    · simp only [mi_loop, if_pos hv]
      calc (mi_loop verts vs2).1.length ≤ verts.length + vs2.length := ih verts
        _ ≤ verts.length + (v :: vs2).length := by simp [Nat.le_succ]
    · simp only [mi_loop, if_neg hv]
      calc (mi_loop (verts ++ [v]) vs2).1.length
          ≤ (verts ++ [v]).length + vs2.length := ih (verts ++ [v])
        _ = verts.length + (v :: vs2).length := by simp; omega

theorem mi_loop_idx :
    ∀ (vs verts : List VertRec) (k : ℕ) (v : VertRec),
      vs[k]? = some v →
      (mi_loop verts vs).2[k]? = some (firstIdx v (mi_loop verts vs).1) := by
  intro vs
  induction vs with
  | nil => intro verts k v h; simp at h
  | cons w ws ih =>
    intro verts k v h
    cases k with
    | zero =>
      rw [List.getElem?_cons_zero, Option.some.injEq] at h
      subst h
      show ((mi_loop verts (w :: ws)).2)[0]? = _
      simp only [mi_loop]
      rw [List.getElem?_cons_zero, Option.some.injEq]
      obtain ⟨ext, hext⟩ :=
        mi_loop_fst_ext ws (if w ∈ verts then verts else verts ++ [w])
      by_cases hv : w ∈ verts
      · simp only [if_pos hv] at hext ⊢
        rw [hext, firstIdx_append, if_pos hv]
      · simp only [if_neg hv] at hext ⊢
        rw [hext, firstIdx_append,
          if_pos (List.mem_append.mpr (Or.inr (List.mem_singleton.mpr rfl))),
          firstIdx_append, if_neg hv, firstIdx_of_not_mem w verts hv]
        simp [firstIdx]
    | succ n =>
      simp only [mi_loop, List.getElem?_cons_succ]
      rw [List.getElem?_cons_succ] at h
      exact ih (if w ∈ verts then verts else verts ++ [w]) n v h

/-- C1 (amended): deduplication in `export_mesh` uses FULL corner
record equality — rounded position, rounded normal, raw (unrounded)
transformed UV and the face-group value `map_idx` — not equality of
the rounded (position, normal, UV) triple alone.  Under full record
equality the assignment is consistent: equal records receive equal
indices, the index buffer has one entry per corner, the vertex list is
at most as long as the corner list, and `export_mesh` emits exactly
the `make_indexes` result of the corner-record list (with `map_idx`
deleted afterwards). -/
theorem C1_dedup_full_record :
    (∀ (vs : List VertRec) (i j : ℕ), vs[i]? = vs[j]? →
      (make_indexes vs).2[i]? = (make_indexes vs).2[j]?) ∧
    (∀ vs : List VertRec, (make_indexes vs).2.length = vs.length ∧
      (make_indexes vs).1.length ≤ vs.length) ∧
    (∀ (md : MeshData) (st : MeshLoopState) (out : MeshOut),
      meshLoop md = .ok st → export_mesh md = .ok out →
      out.indxs = (make_indexes st.verts).2 ∧
      out.verts = (make_indexes st.verts).1.map strip) := by
  refine ⟨?_, ?_, ?_⟩
  · intro vs i j h
    cases hvi : vs[i]? with
    | none =>
      rw [hvi] at h
      have hi : vs.length ≤ i := List.getElem?_eq_none_iff.mp hvi
      have hj : vs.length ≤ j := List.getElem?_eq_none_iff.mp h.symm
      rw [List.getElem?_eq_none (by rw [make_indexes, mi_loop_snd_length]; exact hi),
        List.getElem?_eq_none (by rw [make_indexes, mi_loop_snd_length]; exact hj)]
    | some v =>
      rw [hvi] at h
      rw [make_indexes, mi_loop_idx vs [] i v hvi, mi_loop_idx vs [] j v h.symm]
  · intro vs
    exact ⟨mi_loop_snd_length vs [], by simpa using mi_loop_fst_length vs []⟩
  · intro md st out hml hex
    rw [export_mesh] at hex
    cases htr : triangulate md.faces with
    | error e => rw [htr, except_bind_err] at hex; exact Except.noConfusion hex
    | ok u =>
      simp only [htr, except_bind_ok, hml] at hex
      cases hg : md.vertices.foldlM (fun gs v =>
          v.groups.foldlM
            (fun gs2 g =>
              weightStep md.vertexGroups st.old_indxs (make_indexes st.verts).2 v.index gs2 g)
            gs)
          ([] : List (String × List (ℕ × ℚ))) with
      | error e => simp only [hg, except_bind_err] at hex; exact Except.noConfusion hex
      | ok groups =>
        simp only [hg, except_bind_ok, except_pure_eq, Except.ok.injEq] at hex
        rw [← hex]
        exact ⟨rfl, rfl⟩

/-- C1 (counterexample): in the mesh `c1md` the corner records 0 and 3
have identical rounded positions, rounded normals and (rounded or raw)
UVs — they differ only in the face-map value — yet they are assigned
the DIFFERENT indices 0 and 3, refuting the claim that equality of the
rounded (position, normal, UV) triple alone forces equal indices
regardless of other per-corner data. -/
theorem C1_counterexample :
    meshLoop c1md = .ok c1st ∧
    c1st.verts[0]?.map (fun r => (r.c, r.n, norm_list r.t)) =
      c1st.verts[3]?.map (fun r => (r.c, r.n, norm_list r.t)) ∧
    export_mesh c1md = .ok c1out ∧
    c1out.indxs = [0, 1, 2, 3, 4, 5] := by
  refine ⟨?_, ?_, ?_, ?_⟩ <;> with_unfolding_all rfl

/-- C1 (witness): the amended theorem applied to a concrete
duplicated-record list and to the concrete mesh `c1md`. -/
theorem C1_witness :
    (make_indexes [c1r, c1r]).2[0]? = (make_indexes [c1r, c1r]).2[1]? ∧
    (c1out.indxs = (make_indexes c1st.verts).2 ∧
      c1out.verts = (make_indexes c1st.verts).1.map strip) :=
  ⟨C1_dedup_full_record.1 [c1r, c1r] 0 1 rfl,
   C1_dedup_full_record.2.2 c1md c1st c1out (by with_unfolding_all rfl)
     (by with_unfolding_all rfl)⟩

/-! Claim C8: weight positivity.  Shared helpers first: a plain fold
invariant and the decomposition of a successful `export_mesh` run. -/

theorem foldl_inv {α β : Type} {P : β → Prop} (f : β → α → β) :
    ∀ (l : List α) (b0 : β), (∀ b a, a ∈ l → P b → P (f b a)) → P b0 → P (l.foldl f b0) := by
  intro l
  induction l with
  | nil => intro b0 _ hp; exact hp
  | cons a t ih =>
    intro b0 hstep hp
    rw [List.foldl_cons]
    exact ih (f b0 a) (fun b x hx => hstep b x (List.mem_cons_of_mem _ hx))
      (hstep b0 a (List.mem_cons_self _ _) hp)

theorem export_mesh_ok_shape (md : MeshData) (out : MeshOut)
    (h : export_mesh md = .ok out) :
    ∃ st groups, meshLoop md = .ok st ∧
      md.vertices.foldlM (fun gs v =>
        v.groups.foldlM (fun gs2 g =>
          weightStep md.vertexGroups st.old_indxs (make_indexes st.verts).2 v.index gs2 g) gs)
        ([] : List (String × List (ℕ × ℚ))) = .ok groups ∧
      out = { verts := (make_indexes st.verts).1.map strip,
              indxs := (make_indexes st.verts).2,
              groups := groups, slots := st.slots } := by
  rw [export_mesh] at h
  cases htr : triangulate md.faces with
  | error e => rw [htr, except_bind_err] at h; exact Except.noConfusion h
  | ok u =>
    cases hml : meshLoop md with
    | error e =>
      simp only [htr, except_bind_ok, hml, except_bind_err] at h
      exact Except.noConfusion h
    | ok st =>
      simp only [htr, except_bind_ok, hml] at h
      cases hg : md.vertices.foldlM (fun gs v =>
          v.groups.foldlM (fun gs2 g =>
            weightStep md.vertexGroups st.old_indxs (make_indexes st.verts).2 v.index gs2 g) gs)
          ([] : List (String × List (ℕ × ℚ))) with
      | error e => simp only [hg, except_bind_err] at h; exact Except.noConfusion h
      | ok groups =>
        simp only [hg, except_bind_ok, except_pure_eq, Except.ok.injEq] at h
        exact ⟨st, groups, rfl, hg, h.symm⟩

theorem weightStep_pres (gn : List (ℕ × String)) (oi ix : List ℕ) (vi : ℕ)
    (gs gs2 : List (String × List (ℕ × ℚ))) (g : VGroupEntry)
    (h : weightStep gn oi ix vi gs g = .ok gs2)
    (hp : ∀ p ∈ gs, ∀ e ∈ p.2, 0 < e.2 ∧ NormFixed e.2) :
    ∀ p ∈ gs2, ∀ e ∈ p.2, 0 < e.2 ∧ NormFixed e.2 := by
  rw [weightStep] at h
  cases hd : dictGet gn g.group with
  | none => rw [hd] at h; exact Except.noConfusion h
  | some name =>
    rw [hd] at h
    dsimp only at h
    by_cases hw : norm g.weight ≤ 0
    · rw [if_pos hw, Except.ok.injEq] at h
      rw [← h]
      exact hp
    · rw [if_neg hw, Except.ok.injEq] at h
      rw [← h]
      refine @foldl_inv ℕ _ (fun b => ∀ p ∈ b, ∀ e ∈ p.2, 0 < e.2 ∧ NormFixed e.2)
        _ _ gs (fun b ni _ hpb => ?_) hp
      intro p hpmem e he
      rcases dappend_val_mem b name (ni, norm g.weight) p e hpmem he with ⟨q, hq, heq⟩ | rfl
      · exact hpb q hq e heq
      · exact ⟨lt_of_not_le hw, normFixed_norm g.weight⟩

theorem export_mesh_groups_spec (md : MeshData) (out : MeshOut)
    (h : export_mesh md = .ok out) :
    ∀ p ∈ out.groups, ∀ e ∈ p.2, 0 < e.2 ∧ NormFixed e.2 := by
  obtain ⟨st, groups, hml, hg, rfl⟩ := export_mesh_ok_shape md out h
  show ∀ p ∈ groups, ∀ e ∈ p.2, 0 < e.2 ∧ NormFixed e.2
  refine @foldlM_inv MVert _ (fun gs => ∀ p ∈ gs, ∀ e ∈ p.2, 0 < e.2 ∧ NormFixed e.2) _
    md.vertices (fun gs v _ gs2 hstep hpgs => ?_) [] groups hg
    (fun p hp => absurd hp (List.not_mem_nil p))
  exact @foldlM_inv VGroupEntry _ (fun b => ∀ p ∈ b, ∀ e ∈ p.2, 0 < e.2 ∧ NormFixed e.2) _
    v.groups (fun b g2 _ b2 hs2 hpb => weightStep_pres _ _ _ _ _ _ _ hs2 hpb) gs gs2 hstep hpgs

/-- C8: every weight entry emitted in the mesh output's groups has
weight strictly greater than 0 (the code rounds the weight and skips
the entry entirely when the rounded value is ≤ 0, so no non-positive
weight ever reaches the output). -/
theorem C8_weight_positive (md : MeshData) (out : MeshOut)
    (h : export_mesh md = .ok out) :
    ∀ p ∈ out.groups, ∀ e ∈ p.2, 0 < e.2 :=
  fun p hp e he => (export_mesh_groups_spec md out h p hp e he).1

/-- C8 (witness): the theorem applied to the concrete mesh `c2md`,
whose vertex 0 carries weight 1/2 (emitted) and whose vertex 1 carries
weight -3/10 (dropped: the output groups contain only the single entry
`(0, 1/2)`). -/
theorem C8_witness : 0 < ((1 : ℚ)/2) :=
  C8_weight_positive c2md c2out (by with_unfolding_all rfl)
    ("grp", [(0, 1/2)]) (by with_unfolding_all decide)
    (0, 1/2) (by with_unfolding_all decide)

/-! Claim C2: rounding of emitted floats.  The claim asserts that
EVERY float in the output tree is passed through `norm`; in the code
UV pairs, segment values, bezier offsets and rotation quaternion
components are emitted raw.  The lemmas below establish which parts
ARE rounded (positions, normals, weights, frames, durations, range). -/

theorem norm_list_normFixed (l : List ℚ) : ∀ a ∈ norm_list l, NormFixed a := by
  intro a ha
  rw [norm_list] at ha
  obtain ⟨b, _, rfl⟩ := List.mem_map.mp ha
  exact normFixed_norm b

theorem processCorner_pres (uvl : List (ℚ × ℚ)) (mi : ℤ) (st st2 : MeshLoopState)
    (p : BVert × BLoop) (h : processCorner uvl mi st p = .ok st2)
    (hp : ∀ r ∈ st.verts, (∀ a ∈ r.c, NormFixed a) ∧ (∀ a ∈ r.n, NormFixed a)) :
    ∀ r ∈ st2.verts, (∀ a ∈ r.c, NormFixed a) ∧ (∀ a ∈ r.n, NormFixed a) := by
  obtain ⟨⟨⟨x, y, z⟩, ⟨q, w, e⟩, vi⟩, lp⟩ := p
  rw [processCorner] at h
  dsimp only at h
  by_cases hneg : lp.index < 0
  · rw [if_pos hneg] at h
    exact Except.noConfusion h
  · rw [if_neg hneg] at h
    cases huv : uvl[lp.index.toNat]? with
    | none => rw [huv] at h; exact Except.noConfusion h
    | some uv =>
      rw [huv] at h
      dsimp only at h
      rw [Except.ok.injEq] at h
      rw [← h]
      intro r hr
      rcases List.mem_append.mp hr with hold | hnew
      · exact hp r hold
      · rw [List.mem_singleton.mp hnew]
        exact ⟨norm_list_normFixed _, norm_list_normFixed _⟩

theorem processFace_pres (md : MeshData) (st st2 : MeshLoopState) (fp : ℕ × BFace)
    (h : processFace md st fp = .ok st2)
    (hp : ∀ r ∈ st.verts, (∀ a ∈ r.c, NormFixed a) ∧ (∀ a ∈ r.n, NormFixed a)) :
    ∀ r ∈ st2.verts, (∀ a ∈ r.c, NormFixed a) ∧ (∀ a ∈ r.n, NormFixed a) := by
  obtain ⟨fi, face⟩ := fp
  rw [processFace] at h
  dsimp only at h
  by_cases h3 : face.verts.length = 3
  · rw [if_pos h3] at h
    have hfold : ∀ st1 : MeshLoopState, st1.verts = st.verts →
        (face.verts.zip face.loops).foldlM (processCorner md.uvLayer face.mapIdx) st1 =
          .ok st2 →
        ∀ r ∈ st2.verts, (∀ a ∈ r.c, NormFixed a) ∧ (∀ a ∈ r.n, NormFixed a) := by
      intro st1 hverts hfd
      have hp1 : ∀ r ∈ st1.verts, (∀ a ∈ r.c, NormFixed a) ∧ (∀ a ∈ r.n, NormFixed a) := by
        rw [hverts]; exact hp
      exact @foldlM_inv (BVert × BLoop) _
        (fun s => ∀ r ∈ s.verts, (∀ a ∈ r.c, NormFixed a) ∧ (∀ a ∈ r.n, NormFixed a)) _
        (face.verts.zip face.loops)
        (fun b pc _ b2 hs hpb => processCorner_pres md.uvLayer face.mapIdx b b2 pc hs hpb)
        st1 st2 hfd hp1
    by_cases hmi : 0 ≤ face.mapIdx
    · rw [if_pos hmi] at h
      cases hfm : md.faceMaps[face.mapIdx.toNat]? with
      | none =>
        rw [hfm] at h
        dsimp only at h
        rw [except_bind_err] at h
        exact Except.noConfusion h
      | some nm =>
        rw [hfm] at h
        dsimp only at h
        rw [except_bind_ok] at h
        exact hfold { st with slots := dappend st.slots nm fi } rfl h
    · rw [if_neg hmi, except_bind_ok] at h
      exact hfold st rfl h
  · rw [if_neg h3] at h
    exact Except.noConfusion h

theorem meshLoop_verts_normed (md : MeshData) (st : MeshLoopState)
    (h : meshLoop md = .ok st) :
    ∀ r ∈ st.verts, (∀ a ∈ r.c, NormFixed a) ∧ (∀ a ∈ r.n, NormFixed a) := by
  refine @foldlM_inv (ℕ × BFace) _
    (fun s => ∀ r ∈ s.verts, (∀ a ∈ r.c, NormFixed a) ∧ (∀ a ∈ r.n, NormFixed a)) _
    md.faces.enum (fun b fp _ b2 hs hpb => processFace_pres md b b2 fp hs hpb)
    ⟨[], [], []⟩ st h (fun r hr => absurd hr (List.not_mem_nil r))

theorem mi_loop_fst_sub :
    ∀ (vs verts : List VertRec) (x : VertRec),
      x ∈ (mi_loop verts vs).1 → x ∈ verts ∨ x ∈ vs := by
  intro vs
  induction vs with
  | nil => intro verts x hx; exact Or.inl (by simpa [mi_loop] using hx)
  | cons v vs2 ih =>
    intro verts x hx
    by_cases hv : v ∈ verts
    · simp only [mi_loop, if_pos hv] at hx
      rcases ih verts x hx with h1 | h2
      · exact Or.inl h1
      · exact Or.inr (List.mem_cons_of_mem _ h2)
    · simp only [mi_loop, if_neg hv] at hx
      rcases ih (verts ++ [v]) x hx with h1 | h2
      · rcases List.mem_append.mp h1 with ha | hb
        · exact Or.inl ha
        · rw [List.mem_singleton.mp hb]
          exact Or.inr (List.mem_cons_self _ _)
      · exact Or.inr (List.mem_cons_of_mem _ h2)

theorem kfFold_normed (idx : ℕ) :
    ∀ (ks : List Keyframe) (acc : (Option ℚ × Option ℚ) × List RawNode),
      ((∀ q, acc.1.1 = some q → NormFixed q) ∧ (∀ q, acc.1.2 = some q → NormFixed q) ∧
        ∀ raw ∈ acc.2, NormFixed raw.2.1.f) →
      (∀ q, (ks.foldl (kfStep idx) acc).1.1 = some q → NormFixed q) ∧
        (∀ q, (ks.foldl (kfStep idx) acc).1.2 = some q → NormFixed q) ∧
        ∀ raw ∈ (ks.foldl (kfStep idx) acc).2, NormFixed raw.2.1.f := by
  intro ks
  induction ks with
  | nil => intro acc hp; exact hp
  | cons k t ih =>
    intro acc hp
    rw [List.foldl_cons]
    obtain ⟨h1, h2, h3⟩ := hp
    refine ih (kfStep idx acc k) ⟨?_, ?_, ?_⟩
    · intro q hq
      rw [kfStep] at hq
      dsimp only at hq
      cases hacc : acc.1.1 with
      | none =>
        rw [hacc] at hq
        rw [Option.some.injEq] at hq
        rw [← hq]
        exact normFixed_norm k.frame
      | some s0 =>
        rw [hacc] at hq
        rw [Option.some.injEq] at hq
        rw [← hq]
        exact normFixed_min (h1 s0 hacc) (normFixed_norm k.frame)
    · intro q hq
      rw [kfStep] at hq
      dsimp only at hq
      cases hacc : acc.1.2 with
      | none =>
        rw [hacc] at hq
        rw [Option.some.injEq] at hq
        rw [← hq]
        exact normFixed_norm k.frame
      | some e0 =>
        rw [hacc] at hq
        rw [Option.some.injEq] at hq
        rw [← hq]
        exact normFixed_max (h2 e0 hacc) (normFixed_norm k.frame)
    · intro raw hraw
      rw [kfStep] at hraw
      dsimp only at hraw
      rcases List.mem_append.mp hraw with hold | hnew
      · exact h3 raw hold
      · rw [List.mem_singleton.mp hnew]
        exact normFixed_norm k.frame

theorem processFCurve_pres (st st2 : Phase1State) (c : FCurve)
    (h : processFCurve st c = .ok st2)
    (hp : (∀ q, st.start = some q → NormFixed q) ∧ (∀ q, st.stop = some q → NormFixed q) ∧
      ∀ pr ∈ st.motions, ∀ raw ∈ pr.2, NormFixed raw.2.1.f) :
    (∀ q, st2.start = some q → NormFixed q) ∧ (∀ q, st2.stop = some q → NormFixed q) ∧
      ∀ pr ∈ st2.motions, ∀ raw ∈ pr.2, NormFixed raw.2.1.f := by
  rw [processFCurve] at h
  cases hpp : parse_path c.data_path with
  | error e => rw [hpp, except_bind_err] at h; exact Except.noConfusion h
  | ok o =>
    rw [hpp, except_bind_ok] at h
    cases o with
    | none =>
      rw [show (pure st : Except String Phase1State) = .ok st from rfl, Except.ok.injEq] at h
      rw [← h]
      exact hp
    | some path =>
      dsimp only at h
      rw [show ∀ s : Phase1State, (pure s : Except String Phase1State) = .ok s from fun _ => rfl,
        Except.ok.injEq] at h
      obtain ⟨hk1, hk2, hk3⟩ :=
        kfFold_normed c.array_index c.keyframe_points ((st.start, st.stop), [])
          ⟨hp.1, hp.2.1, fun raw hraw => absurd hraw (List.not_mem_nil raw)⟩
      rw [← h]
      refine ⟨hk1, hk2, ?_⟩
      intro pr hpr raw hraw
      rcases dextend_val_mem st.motions path _ pr raw hpr hraw with ⟨q0, hq0, hr0⟩ | hnew
      · exact hp.2.2 q0 hq0 raw hr0
      · exact hk3 raw hnew

theorem phase1_normed (act : Action) (st : Phase1State) (h : phase1 act = .ok st) :
    (∀ q, st.start = some q → NormFixed q) ∧ (∀ q, st.stop = some q → NormFixed q) ∧
      ∀ pr ∈ st.motions, ∀ raw ∈ pr.2, NormFixed raw.2.1.f := by
  refine @foldlM_inv FCurve _
    (fun s => (∀ q, s.start = some q → NormFixed q) ∧ (∀ q, s.stop = some q → NormFixed q) ∧
      ∀ pr ∈ s.motions, ∀ raw ∈ pr.2, NormFixed raw.2.1.f) _
    act.fcurves (fun b c _ b2 hs hpb => processFCurve_pres b b2 c hs hpb)
    ⟨none, none, []⟩ st h
    ⟨fun q hq => Option.noConfusion hq, fun q hq => Option.noConfusion hq,
      fun pr hpr => absurd hpr (List.not_mem_nil pr)⟩

theorem mergeInto_mem (val : AxVal) (idx : ℕ) (f : ℚ) :
    ∀ motion motion2 : List MNode,
      mergeInto val idx f motion = some (.ok motion2) →
      ∀ m2 ∈ motion2, ∃ m ∈ motion, m2.f = m.f ∧ m2.d = m.d ∧ m2.k = m.k := by
  intro motion
  induction motion with
  | nil => intro motion2 h; exact Option.noConfusion h
  | cons m rest ih =>
    intro motion2 h
    rw [mergeInto] at h
    by_cases hf : |m.f - f| < ACTION_PRECISION
    · rw [if_pos hf, Option.some.injEq] at h
      cases hls : listSet m.v idx (some val) with
      | none => rw [hls] at h; exact Except.noConfusion h
      | some v1 =>
        rw [hls] at h
        dsimp only at h
        rw [Except.ok.injEq] at h
        intro m2 hm2
        rw [← h] at hm2
        rcases List.mem_cons.mp hm2 with rfl | hr
        · exact ⟨m, List.mem_cons_self _ _, rfl, rfl, rfl⟩
        · exact ⟨m2, List.mem_cons_of_mem _ hr, rfl, rfl, rfl⟩
    · rw [if_neg hf] at h
      cases hmi : mergeInto val idx f rest with
      | none => rw [hmi] at h; exact Option.noConfusion h
      | some r =>
        rw [hmi] at h
        cases r with
        | error e =>
          rw [show (Option.some (Except.error e : Except String (List MNode))).map
              (fun r => r.map (fun l => m :: l)) = some (.error e) from rfl,
            Option.some.injEq] at h
          exact Except.noConfusion h
        | ok tail0 =>
          rw [show (Option.some (Except.ok tail0 : Except String (List MNode))).map
              (fun r => r.map (fun l => m :: l)) = some (.ok (m :: tail0)) from rfl,
            Option.some.injEq, Except.ok.injEq] at h
          intro m2 hm2
          rw [← h] at hm2
          rcases List.mem_cons.mp hm2 with rfl | hr
          · exact ⟨m2, List.mem_cons_self _ _, rfl, rfl, rfl⟩
          · obtain ⟨m0, hm0, he⟩ := ih tail0 hmi m2 hr
            exact ⟨m0, List.mem_cons_of_mem _ hm0, he⟩

theorem mergeStep_pres (kind : String) (motion motion2 : List MNode) (raw : RawNode)
    (h : mergeStep kind motion raw = .ok motion2)
    (hraw : NormFixed raw.2.1.f)
    (hp : ∀ m ∈ motion, NormFixed m.f ∧ m.d = none) :
    ∀ m ∈ motion2, NormFixed m.f ∧ m.d = none := by
  rw [mergeStep] at h
  dsimp only at h
  cases hmi : mergeInto ⟨(raw.2.1.v, none), raw.2.2, raw.2.1.e, raw.2.1.c, none⟩
      raw.1 raw.2.1.f motion with
  | some res =>
    rw [hmi] at h
    dsimp only at h
    intro m2 hm2
    obtain ⟨m, hm, hf, hd, _⟩ :=
      mergeInto_mem ⟨(raw.2.1.v, none), raw.2.2, raw.2.1.e, raw.2.1.c, none⟩ raw.1 raw.2.1.f
        motion motion2 (by rw [hmi]; rw [h]) m2 hm2
    exact ⟨by rw [hf]; exact (hp m hm).1, by rw [hd]; exact (hp m hm).2⟩
  | none =>
    rw [hmi] at h
    dsimp only at h
    cases hls : listSet (List.replicate (if kind = "rot" then 4 else 3) none) raw.1
        (some (⟨(raw.2.1.v, none), raw.2.2, raw.2.1.e, raw.2.1.c, none⟩ : AxVal)) with
    | none => rw [hls] at h; exact Except.noConfusion h
    | some v1 =>
      rw [hls] at h
      dsimp only at h
      rw [Except.ok.injEq] at h
      intro m2 hm2
      rw [← h] at hm2
      rcases List.mem_append.mp hm2 with hold | hnew
      · exact hp m2 hold
      · rw [List.mem_singleton.mp hnew]
        exact ⟨hraw, rfl⟩

theorem derive_normed :
    ∀ inp out : List MNode, deriveSegments inp = .ok out →
      (∀ m ∈ inp, NormFixed m.f ∧ m.d = none) →
      ∀ m ∈ out, NormFixed m.f ∧ ∀ dd, m.d = some dd → NormFixed dd := by
  intro inp
  induction inp with
  | nil =>
    intro out h _
    simp only [deriveSegments, Except.ok.injEq] at h
    intro m hm
    rw [← h] at hm
    exact absurd hm (List.not_mem_nil m)
  | cons m0 rest ih =>
    cases rest with
    | nil =>
      intro out h hp
      simp only [deriveSegments, Except.ok.injEq] at h
      intro m hm
      rw [← h] at hm
      rw [List.mem_singleton.mp hm]
      have hm0 := hp m0 (List.mem_cons_self _ _)
      refine ⟨hm0.1, fun dd hdd => ?_⟩
      rw [hm0.2] at hdd
      exact Option.noConfusion hdd
    | cons next rest2 =>
      intro out h hp
      by_cases hd : next.f - m0.f < ACTION_PRECISION
      · rw [deriveSegments, if_pos hd] at h
        exact Except.noConfusion h
      · rw [deriveSegments, if_neg hd] at h
        cases hv : ((m0.v.zip next.v).mapM fun p => segAxis p.1 p.2) with
        | error e => rw [hv, except_bind_err] at h; exact Except.noConfusion h
        | ok v1 =>
          rw [hv, except_bind_ok] at h
          cases ht : deriveSegments (next :: rest2) with
          | error e => rw [ht, except_bind_err] at h; exact Except.noConfusion h
          | ok tail =>
            rw [ht, except_bind_ok, except_pure_eq, Except.ok.injEq] at h
            intro m hm
            rw [← h] at hm
            rcases List.mem_cons.mp hm with rfl | htail
            · refine ⟨(hp m0 (List.mem_cons_self _ _)).1, fun dd hdd => ?_⟩
              rw [Option.some.injEq] at hdd
              rw [← hdd]
              exact normFixed_sub (hp next (List.mem_cons_of_mem _ (List.mem_cons_self _ _))).1
                (hp m0 (List.mem_cons_self _ _)).1
            · exact ih tail ht (fun m3 hm3 => hp m3 (List.mem_cons_of_mem _ hm3)) m htail

theorem finalizeNode_fd (m : MNode) (o : ONode) (h : finalizeNode m = .ok o) :
    o.f = m.f ∧ o.d = m.d := by
  rw [finalizeNode] at h
  cases hv : m.v.mapM finalizeVal with
  | error e => rw [hv, except_bind_err] at h; exact Except.noConfusion h
  | ok vs =>
    rw [hv, except_bind_ok] at h
    by_cases hk : m.k = "rot"
    · rw [if_pos hk] at h
      rcases vs with _ | ⟨a1, _ | ⟨a2, _ | ⟨a3, _ | ⟨a4, _ | t⟩⟩⟩⟩ <;> dsimp only at h
      · exact Except.noConfusion h
      · exact Except.noConfusion h
      · exact Except.noConfusion h
      · exact Except.noConfusion h
      · rw [except_pure_eq, Except.ok.injEq] at h
        rw [← h]
        exact ⟨rfl, rfl⟩
      · exact Except.noConfusion h
    · rw [if_neg hk, except_pure_eq, Except.ok.injEq] at h
      rw [← h]
      exact ⟨rfl, rfl⟩

theorem processPath_normed (kind : String) (raws : List RawNode) (out : List ONode)
    (h : processPath kind raws = .ok out)
    (hraws : ∀ raw ∈ raws, NormFixed raw.2.1.f) :
    ∀ nd ∈ out, NormFixed nd.f ∧ ∀ dd, nd.d = some dd → NormFixed dd := by
  rw [processPath] at h
  cases hm : raws.foldlM (mergeStep kind) [] with
  | error e => rw [hm, except_bind_err] at h; exact Except.noConfusion h
  | ok motion =>
    rw [hm, except_bind_ok] at h
    cases hdrv : deriveSegments (sortNodes motion) with
    | error e => rw [hdrv, except_bind_err] at h; exact Except.noConfusion h
    | ok derived =>
      rw [hdrv, except_bind_ok] at h
      have hmot : ∀ m ∈ motion, NormFixed m.f ∧ m.d = none := by
        refine @foldlM_inv RawNode (List MNode)
          (fun mo => ∀ m ∈ mo, NormFixed m.f ∧ m.d = none)
          (mergeStep kind) raws (fun b raw hr b2 hs hpb => ?_)
          [] motion hm (fun m hm0 => absurd hm0 (List.not_mem_nil m))
        exact mergeStep_pres kind b b2 raw hs (hraws raw hr) hpb
      have hsort : ∀ m ∈ sortNodes motion, NormFixed m.f ∧ m.d = none := by
        intro m hms
        exact hmot m ((List.perm_insertionSort _ motion).mem_iff.mp hms)
      have hder := derive_normed (sortNodes motion) derived hdrv hsort
      refine mapM_ok_forall finalizeNode derived.dropLast out h (fun m1 hm1 o ho => ?_)
      obtain ⟨hf, hdd⟩ := finalizeNode_fd m1 o ho
      have hm1d := hder m1 (mem_of_mem_dropLast _ m1 hm1)
      exact ⟨by rw [hf]; exact hm1d.1, fun dd hd2 => hm1d.2 dd (by rw [← hdd]; exact hd2)⟩

theorem export_action_normed (act : Action) (out : ActionOut)
    (h : export_action act = .ok out) :
    NormFixed out.range.1 ∧ NormFixed out.range.2 ∧
      ∀ pr ∈ out.objects, ∀ nd ∈ pr.2,
        NormFixed nd.f ∧ ∀ dd, nd.d = some dd → NormFixed dd := by
  rw [export_action] at h
  cases hp1 : phase1 act with
  | error e => rw [hp1, except_bind_err] at h; exact Except.noConfusion h
  | ok st =>
    rw [hp1, except_bind_ok] at h
    obtain ⟨hs, he, hmot⟩ := phase1_normed act st hp1
    cases hobj : st.motions.foldlM (fun objs pr => do
        let motion ← processPath pr.1.2 pr.2
        pure (dextend objs pr.1.1 motion)) ([] : List (String × List ONode)) with
    | error e => rw [hobj, except_bind_err] at h; exact Except.noConfusion h
    | ok objs =>
      rw [hobj, except_bind_ok] at h
      have hobjs : ∀ pr ∈ objs, ∀ nd ∈ pr.2,
          NormFixed nd.f ∧ ∀ dd, nd.d = some dd → NormFixed dd := by
        refine @foldlM_inv (MPath × List RawNode) _
          (fun ob => ∀ pr ∈ ob, ∀ nd ∈ pr.2,
            NormFixed nd.f ∧ ∀ dd, nd.d = some dd → NormFixed dd) _
          st.motions (fun b pr hprm b2 hstep hpb => ?_) [] objs hobj
          (fun pr hpr => absurd hpr (List.not_mem_nil pr))
        cases hpath : processPath pr.1.2 pr.2 with
        | error e => rw [hpath, except_bind_err] at hstep; exact Except.noConfusion hstep
        | ok motion =>
          rw [hpath, except_bind_ok, except_pure_eq, Except.ok.injEq] at hstep
          intro q hq nd hnd
          rw [← hstep] at hq
          rcases dextend_val_mem b pr.1.1 motion q nd hq hnd with ⟨q0, hq0, hnd0⟩ | hnew
          · exact hpb q0 hq0 nd hnd0
          · exact processPath_normed pr.1.2 pr.2 motion hpath
              (fun raw hr => hmot pr hprm raw hr) nd hnew
      cases hss : st.start with
      | none =>
        rw [hss] at h
        cases hee : st.stop with
        | none => rw [hee] at h; exact Except.noConfusion h
        | some e2 => rw [hee] at h; exact Except.noConfusion h
      | some s =>
        rw [hss] at h
        cases hee : st.stop with
        | none => rw [hee] at h; exact Except.noConfusion h
        | some e2 =>
          rw [hee] at h
          dsimp only at h
          rw [except_pure_eq, Except.ok.injEq] at h
          rw [← h]
          exact ⟨hs s hss, he e2 hee, hobjs⟩

/-- C2 (amended): the floats the code passes through `norm` before
emission are the mesh positions and normals, the mesh weights, the
skeleton head/tail positions, and the action frames, durations and
range (durations are differences of rounded frames and hence exact
multiples of 10⁻⁶).  UV coordinates, segment from/to values, bezier
offsets and rotation quaternion components are NOT rounded (see the
counterexample). -/
theorem C2_rounded_fields :
    (∀ (md : MeshData) (out : MeshOut), export_mesh md = .ok out →
      (∀ vo ∈ out.verts, (∀ a ∈ vo.c, NormFixed a) ∧ (∀ a ∈ vo.n, NormFixed a)) ∧
      (∀ p ∈ out.groups, ∀ e2 ∈ p.2, NormFixed e2.2)) ∧
    (∀ sk : Skeleton, ∀ p ∈ (export_skeleton sk).bones,
      (∀ a ∈ p.2.h, NormFixed a) ∧ (∀ a ∈ p.2.t, NormFixed a)) ∧
    (∀ (act : Action) (out : ActionOut), export_action act = .ok out →
      NormFixed out.range.1 ∧ NormFixed out.range.2 ∧
      ∀ pr ∈ out.objects, ∀ nd ∈ pr.2,
        NormFixed nd.f ∧ ∀ dd, nd.d = some dd → NormFixed dd) := by
  refine ⟨?_, ?_, ?_⟩
  · intro md out h
    constructor
    · obtain ⟨st, groups, hml, hg, rfl⟩ := export_mesh_ok_shape md out h
      intro vo hvo
      obtain ⟨r, hr, rfl⟩ := List.mem_map.mp hvo
      have hrin : r ∈ st.verts := by
        rcases mi_loop_fst_sub st.verts [] r hr with h0 | h1
        · exact absurd h0 (List.not_mem_nil r)
        · exact h1
      exact meshLoop_verts_normed md st hml r hrin
    · intro p hp e2 he2
      exact (export_mesh_groups_spec md out h p hp e2 he2).2
  · intro sk
    show ∀ p ∈ sk.bones.foldl (fun acc b => dictSet acc b.name (boneRecord b)) [],
      (∀ a ∈ p.2.h, NormFixed a) ∧ (∀ a ∈ p.2.t, NormFixed a)
    refine @foldl_inv SBone (List (String × BoneOut))
      (fun acc => ∀ p ∈ acc, (∀ a ∈ p.2.h, NormFixed a) ∧ (∀ a ∈ p.2.t, NormFixed a))
      (fun acc b => dictSet acc b.name (boneRecord b)) sk.bones []
      (fun acc b _ hpacc => ?_) (fun p hp => absurd hp (List.not_mem_nil p))
    intro q hq
    rcases dictSet_mem acc b.name (boneRecord b) q hq with hold | rfl
    · exact hpacc q hold
    · exact ⟨norm_list_normFixed _, norm_list_normFixed _⟩
  · exact export_action_normed

/-- C2 (counterexample): the mesh output on `c2md` contains the UV
u-coordinate `0.1234567`, which has 7 decimal digits and is NOT a
fixed point of `norm`: UV coordinates are emitted without rounding,
refuting the claim that every float in the output tree is rounded to 6
decimal digits before inclusion. -/
theorem C2_counterexample :
    export_mesh c2md = .ok c2out ∧
    c2out.verts[0]?.map VertOut.t = some [1234567/10000000, 1] ∧
    ¬ NormFixed (1234567/10000000) := by
  refine ⟨by with_unfolding_all rfl, by with_unfolding_all rfl, ?_⟩
  show ¬ (norm (1234567/10000000) = 1234567/10000000)
  with_unfolding_all decide

/-- C2 (witness): the amended theorem applied to the concrete mesh
`c2md` (rounded position coordinate 0, rounded weight 1/2), to the
concrete skeleton `c2sk` (rounded tail coordinate -1), and to the
concrete action `c2act` (rounded range end 10). -/
theorem C2_witness :
    NormFixed (0 : ℚ) ∧ NormFixed ((1 : ℚ)/2) ∧ NormFixed (-1 : ℚ) ∧ NormFixed (10 : ℚ) := by
  refine ⟨?_, ?_, ?_, ?_⟩
  · exact ((C2_rounded_fields.1 c2md c2out (by with_unfolding_all rfl)).1
      ⟨[0, 0, 0], [0, 1, 0], [1234567/10000000, 1]⟩ (List.mem_cons_self _ _)).1
      0 (List.mem_cons_self _ _)
  · exact (C2_rounded_fields.1 c2md c2out (by with_unfolding_all rfl)).2
      ("grp", [(0, 1/2)]) (List.mem_cons_self _ _) (0, 1/2) (List.mem_cons_self _ _)
  · exact (C2_rounded_fields.2.1 c2sk
      ("s", ⟨[0, 0, 0], [0, 0, -1], [0, 0, 0, 0], []⟩)
      (by with_unfolding_all exact List.mem_cons_self _ _)).2
      (-1) (List.mem_cons_of_mem _ (List.mem_cons_of_mem _ (List.mem_cons_self _ _)))
  · exact (C2_rounded_fields.2.2 c2act c2aout (by with_unfolding_all rfl)).2.1

/-! Claim C7: terminal-node dropping and ordering.  Per (object, kind)
path the code sorts, derives segments and drops the last node — but an
object with several motion kinds gets the per-kind lists CONCATENATED,
so the object's node list as a whole is not sorted. -/

theorem derive_map_f :
    ∀ inp out : List MNode, deriveSegments inp = .ok out →
      out.map MNode.f = inp.map MNode.f := by
  intro inp
  induction inp with
  | nil =>
    intro out h
    simp only [deriveSegments, Except.ok.injEq] at h
    rw [← h]
  | cons m0 rest ih =>
    cases rest with
    | nil =>
      intro out h
      simp only [deriveSegments, Except.ok.injEq] at h
      rw [← h]
    | cons next rest2 =>
      intro out h
      by_cases hd : next.f - m0.f < ACTION_PRECISION
      · rw [deriveSegments, if_pos hd] at h
        exact Except.noConfusion h
      · rw [deriveSegments, if_neg hd] at h
        cases hv : ((m0.v.zip next.v).mapM fun p => segAxis p.1 p.2) with
        | error e => rw [hv, except_bind_err] at h; exact Except.noConfusion h
        | ok v1 =>
          rw [hv, except_bind_ok] at h
          cases ht : deriveSegments (next :: rest2) with
          | error e => rw [ht, except_bind_err] at h; exact Except.noConfusion h
          | ok tail =>
            rw [ht, except_bind_ok, except_pure_eq, Except.ok.injEq] at h
            rw [← h, List.map_cons, List.map_cons, ih tail ht]

/-- C7 (amended): per object AND motion kind, the emitted node
sequence is the frame-merged nodes sorted by frame ascending with the
final node removed (its frame list is the `dropLast` of the sorted
merged frame list); an object's full output list is the concatenation
of its per-kind sequences in path insertion order, so the per-object
claim of a single frame-sorted list fails when several kinds are
present (see the counterexample). -/
theorem C7_per_path_drop_terminal (kind : String) (raws : List RawNode)
    (motion : List MNode) (out : List ONode)
    (hm : raws.foldlM (mergeStep kind) [] = .ok motion)
    (h : processPath kind raws = .ok out) :
    out.map ONode.f = ((sortNodes motion).map MNode.f).dropLast := by
  rw [processPath, hm, except_bind_ok] at h
  cases hdrv : deriveSegments (sortNodes motion) with
  | error e => rw [hdrv, except_bind_err] at h; exact Except.noConfusion h
  | ok derived =>
    rw [hdrv, except_bind_ok] at h
    have h1 : out.map ONode.f = derived.dropLast.map MNode.f :=
      mapM_ok_map finalizeNode ONode.f MNode.f derived.dropLast out h
        (fun m1 _ o ho => (finalizeNode_fd m1 o ho).1)
    rw [h1, List.map_dropLast, derive_map_f (sortNodes motion) derived hdrv]

/-- C7 (counterexample): in the action `c7act` the object "A" has both
location and scale channels; the emitted node list for "A" carries
frames `[0, 10, 5]` — the per-kind sorted lists `[0, 10]` (location,
node 20 dropped) and `[5]` (scale, node 20 dropped) concatenated —
which is NOT sorted by frame ascending, refuting the claim that the
object's output node list is the merged nodes sorted by frame with the
final node removed. -/
theorem C7_counterexample :
    (export_action c7act).map (fun o => o.objects.map (fun pr => (pr.1, pr.2.map ONode.f))) =
      .ok [("A", [0, 10, 5])] ∧
    ¬ List.Sorted (· ≤ ·) [(0 : ℚ), 10, 5] := by
  constructor
  · with_unfolding_all rfl
  · show ¬ List.Pairwise (· ≤ ·) [(0 : ℚ), 10, 5]
    with_unfolding_all decide

/-- C7 (witness): the amended theorem applied to the concrete raw node
list `c7wRaws` (axes 0–2 keyed at frames 0 and 10): the emitted frames
are the `dropLast` of the sorted merged frames `[0, 10]`. -/
theorem C7_witness :
    c7wOut.map ONode.f = ((sortNodes c7wMot).map MNode.f).dropLast :=
  C7_per_path_drop_terminal "pos" c7wRaws c7wMot c7wOut
    (by with_unfolding_all rfl) (by with_unfolding_all rfl)

/-! Claim C9: unrecognised animation channels are skipped silently. -/

/-- C9: an f-curve whose data path ends in none of
`rotation_quaternion`, `location`, `scale` (nor `rotation_euler`,
which instead raises) is skipped entirely: deleting it from the
f-curve list leaves the whole action export — motion nodes, frame
range, and errors — unchanged. -/
theorem C9_unrecognised_channel_skipped (l r : List FCurve) (c : FCurve)
    (h : parse_path c.data_path = .ok none) :
    export_action ⟨l ++ c :: r⟩ = export_action ⟨l ++ r⟩ := by
  have hph : phase1 ⟨l ++ c :: r⟩ = phase1 ⟨l ++ r⟩ := by
    show (l ++ c :: r).foldlM processFCurve ⟨none, none, []⟩ =
      (l ++ r).foldlM processFCurve ⟨none, none, []⟩
    rw [List.foldlM_append, List.foldlM_append]
    cases hl : l.foldlM processFCurve ⟨none, none, []⟩ with
    | error e => rw [except_bind_err, except_bind_err]
    | ok st =>
      rw [except_bind_ok, except_bind_ok, List.foldlM_cons]
      have hc : processFCurve st c = pure st := by
        rw [processFCurve, h, except_bind_ok]
      rw [hc, except_pure_eq, except_bind_ok]
  rw [export_action, export_action, hph]

/-- C9 (witness): the theorem applied to the concrete channel list
`[c9loc, c9foo]`, where the data path "foo" parses to no motion
kind. -/
theorem C9_witness :
    parse_path "foo" = .ok none ∧
    export_action ⟨[c9loc, c9foo]⟩ = export_action ⟨[c9loc]⟩ :=
  ⟨by with_unfolding_all rfl,
   C9_unrecognised_channel_skipped [c9loc] [] c9foo (by with_unfolding_all rfl)⟩

/-! Claim C10: an object whose keyframes all merge into one motion node
still appears in the output, with an empty node list. -/

/-- C10: when the phase-1 state holds exactly one (object, kind) path
whose raw nodes all sit at one rounded frame (so they merge into a
single motion node) with in-range axis indices, the export succeeds
and the object appears as a key of the objects map with an EMPTY node
list: dropping the terminal node of a one-node sequence leaves
nothing, but the defaultdict access has already registered the object
key and no error is raised. -/
theorem C10_single_node_empty_object (act : Action) (st : Phase1State)
    (name kind : String) (raws : List RawNode) (f0 s e : ℚ)
    (h1 : phase1 act = .ok st)
    (hm : st.motions = [((name, kind), raws)])
    (hf : ∀ raw ∈ raws, raw.2.1.f = f0)
    (hidx : ∀ raw ∈ raws, raw.1 < if kind = "rot" then 4 else 3)
    (hs : st.start = some s) (he : st.stop = some e) :
    export_action act = .ok { range := (s, e), objects := [(name, [])] } := by
  have hfold : ∀ (rs : List RawNode) (mo : List MNode),
      (∀ raw ∈ rs, raw.2.1.f = f0 ∧ raw.1 < if kind = "rot" then 4 else 3) →
      (mo = [] ∨ ∃ m, mo = [m] ∧ m.f = f0 ∧
        m.v.length = (if kind = "rot" then 4 else 3)) →
      ∃ mo2, rs.foldlM (mergeStep kind) mo = .ok mo2 ∧
        (mo2 = [] ∨ ∃ m, mo2 = [m] ∧ m.f = f0 ∧
          m.v.length = (if kind = "rot" then 4 else 3)) := by
    intro rs
    induction rs with
    | nil =>
      intro mo _ hmo
      exact ⟨mo, rfl, hmo⟩
    | cons raw rest ih =>
      intro mo hrs hmo
      obtain ⟨hr1, hr2⟩ := hrs raw (List.mem_cons_self _ _)
      rcases hmo with rfl | ⟨m, rfl, hmf, hml⟩
      · obtain ⟨v1, hv1⟩ := listSet_isSome
          (List.replicate (if kind = "rot" then 4 else 3) (none : Option AxVal)) raw.1
          (some ⟨(raw.2.1.v, none), raw.2.2, raw.2.1.e, raw.2.1.c, none⟩)
          (by rw [List.length_replicate]; exact hr2)
        have hstep : mergeStep kind [] raw = .ok [⟨raw.2.1.f, none, kind, v1⟩] := by
          rw [mergeStep]
          dsimp only
          rw [show mergeInto ⟨(raw.2.1.v, none), raw.2.2, raw.2.1.e, raw.2.1.c, none⟩
            raw.1 raw.2.1.f [] = none from rfl]
          dsimp only
          rw [hv1]
          rfl
        obtain ⟨mo2, hfd, hmo2⟩ := ih [⟨raw.2.1.f, none, kind, v1⟩]
          (fun rw0 hr0 => hrs rw0 (List.mem_cons_of_mem _ hr0))
          (Or.inr ⟨⟨raw.2.1.f, none, kind, v1⟩, rfl, hr1,
            by rw [listSet_length _ _ _ _ hv1, List.length_replicate]⟩)
        refine ⟨mo2, ?_, hmo2⟩
        rw [List.foldlM_cons, hstep, except_bind_ok]
        exact hfd
      · have habs : |m.f - raw.2.1.f| < ACTION_PRECISION := by
          rw [hmf, hr1, sub_self, abs_zero, ACTION_PRECISION]
          norm_num
        obtain ⟨v1, hv1⟩ := listSet_isSome m.v raw.1
          (some ⟨(raw.2.1.v, none), raw.2.2, raw.2.1.e, raw.2.1.c, none⟩)
          (by rw [hml]; exact hr2)
        have hstep : mergeStep kind [m] raw = .ok [{ m with v := v1 }] := by
          rw [mergeStep]
          dsimp only
          rw [show mergeInto ⟨(raw.2.1.v, none), raw.2.2, raw.2.1.e, raw.2.1.c, none⟩
              raw.1 raw.2.1.f [m] =
            some (match listSet m.v raw.1
                (some ⟨(raw.2.1.v, none), raw.2.2, raw.2.1.e, raw.2.1.c, none⟩) with
              | some v2 => .ok ({ m with v := v2 } :: [])
              | none => .error "IndexError") from by rw [mergeInto, if_pos habs]]
          rw [hv1]
        obtain ⟨mo2, hfd, hmo2⟩ := ih [{ m with v := v1 }]
          (fun rw0 hr0 => hrs rw0 (List.mem_cons_of_mem _ hr0))
          (Or.inr ⟨{ m with v := v1 }, rfl, hmf, by rw [listSet_length _ _ _ _ hv1]; exact hml⟩)
        refine ⟨mo2, ?_, hmo2⟩
        rw [List.foldlM_cons, hstep, except_bind_ok]
        exact hfd
  obtain ⟨mo2, hfd, hmo2⟩ := hfold raws []
    (fun raw hr => ⟨hf raw hr, hidx raw hr⟩) (Or.inl rfl)
  have hpp : processPath kind raws = .ok [] := by
    rw [processPath, hfd, except_bind_ok]
    rcases hmo2 with rfl | ⟨m, rfl, _, _⟩
    · rfl
    · rfl
  rw [export_action, h1, except_bind_ok, hm, List.foldlM_cons]
  dsimp only
  rw [hpp, except_bind_ok, except_pure_eq, except_bind_ok, List.foldlM_nil, except_pure_eq,
    except_bind_ok, hs, he]
  rfl

/-- C10 (witness): the theorem applied to `c10act`, whose two
keyframes at raw frames 0 and 0.0000001 both round to frame 0 and
merge into one node: the export succeeds with range `[0, 0]` and the
objects map `{"X": []}`. -/
theorem C10_witness :
    export_action c10act = .ok { range := (0, 0), objects := [("X", [])] } :=
  C10_single_node_empty_object c10act c10st "X" "pos"
    [(0, ⟨0, 5, none, none⟩, ⟨(0, 0), (0, 0)⟩), (0, ⟨0, 6, none, none⟩, ⟨(0, 0), (0, 0)⟩)]
    0 0 0 (by with_unfolding_all rfl) rfl
    (by with_unfolding_all decide) (by with_unfolding_all decide) rfl rfl

end RTExport
